import Mathlib

/-!
# Clickhouse_Sec: the record decoder, the sort-token filter and start-up provisioning

A model of `main.go`: `Record.UnmarshalJSON` with the parts of `encoding/json`, `strconv` and
`fmt` it relies on, `fetchRecords` with `regexp.MatchString` on its pattern, and
`checkTableExists`, `createTable`, `insertMockData` and the start of `main`.

* Text is a `String`, a sequence of Unicode code points; Go strings that are not valid UTF-8
  are outside the model.
* A JSON text is taken as the scanner of `encoding/json` reads it, a tree of values with each
  number literal kept exact; a body that is no JSON text is `Body.text`. The scanner's limit
  on nesting, 10000 open arrays and objects, is `checkValid`.
* A `float64` is the exact binary fraction it stands for, and the decoder rounds a number
  literal to the nearest one, ties to even, as `strconv.ParseFloat` does.
* `int64`, and `int` on a 64-bit target, are integers of the `int64` range. What a conversion
  from `float64` yields when the value does not fit is left to the platform by the Go
  specification and is a parameter, `conv`.
* The store is a function from the commands sent so far and the next command to a reply;
  every `http.Post` is recorded in the list of commands sent.
-/

namespace ClickhouseSec

/-! ## The sort-token filter: `regexp.MatchString` on the pattern of `fetchRecords` -/

/-- One position of a pattern: a character class read once, or read one or more times
(the `+` operator). -/
inductive Atom where
  | one (cls : Char → Bool)
  | many1 (cls : Char → Bool)

/-- RE2 class `\s`: tab, line feed, form feed, carriage return and space. -/
def isSpaceRE2 (c : Char) : Bool :=
  c == '\t' || c == '\n' || c == '\x0c' || c == '\r' || c == ' '

/-- The class of the pattern text `\*`. -/
def isStar (c : Char) : Bool := c == '*'

/-- The orbit of an ASCII rune `r` under `unicode.SimpleFold`: for a letter its two cases,
and for `s` and `k` also U+017F (long s) and U+212A (Kelvin sign). -/
def foldOrbit (r : Char) : List Char :=
  [r.toLower, r.toUpper] ++ (if r.toLower = 's' then [Char.ofNat 0x17F] else [])
    ++ (if r.toLower = 'k' then [Char.ofNat 0x212A] else [])

/-- The class a literal ASCII rune `r` stands for under the flag `(?i)`: the runes of its
orbit. -/
def foldClass (r : Char) (c : Char) : Bool := (foldOrbit r).contains c

/-- A literal word under `(?i)`. -/
def foldLit (w : String) : List Atom := w.data.map (fun r => Atom.one (foldClass r))

/-- The pattern of `fetchRecords`, `(?i)select\s+\*+\s+from`. -/
def sortPattern : List Atom :=
  foldLit "select" ++ [Atom.many1 isSpaceRE2, Atom.many1 isStar, Atom.many1 isSpaceRE2]
    ++ foldLit "from"

/-- Whether some initial segment of the text matches the pattern. -/
def matchHere : List Atom → List Char → Bool
  | [], _ => true
  | Atom.one _ :: _, [] => false
  | Atom.one p :: rest, c :: cs => p c && matchHere rest cs
  | Atom.many1 _ :: _, [] => false
  | Atom.many1 p :: rest, c :: cs =>
      p c && (matchHere rest cs || matchHere (Atom.many1 p :: rest) cs)

/-- Unanchored search, as `regexp.MatchString` does it: the pattern may match at any
position of the text. -/
def matchAnywhere (re : List Atom) : List Char → Bool
  | [] => matchHere re []
  | c :: cs => matchHere re (c :: cs) || matchAnywhere re cs

/-- `regexp.MatchString` applied to the pattern of `fetchRecords`; the pattern compiles, so the
error result the caller discards is always nil. -/
def MatchString (s : String) : Bool := matchAnywhere sortPattern s.data

/-! ## JSON documents and the values `encoding/json` decodes them to -/

/-- A JSON number literal; it denotes exactly `± digits × 10 ^ exp10`
(`3.9` is `⟨false, 39, -1⟩`, `1e400` is `⟨false, 1, 400⟩`). -/
structure JNumber where
  neg : Bool
  digits : Nat
  exp10 : Int
  deriving DecidableEq

/-- A JSON document as the scanner of `encoding/json` reads it; the members of an object are
kept in the order of the text. -/
inductive JSON where
  | null
  | bool (b : Bool)
  | num (n : JNumber)
  | str (s : String)
  | arr (items : List JSON)
  | obj (members : List (String × JSON))

/-- A finite `float64`, `± mant × 2 ^ exp`, kept normalised: `2 ^ 52 ≤ mant < 2 ^ 53` or
`exp = -1074`. Zero keeps its sign. -/
structure F64 where
  neg : Bool
  mant : Nat
  exp : Int
  deriving DecidableEq

/-- Bit length by halving, `fuel` steps at most. -/
def bitLenAux : Nat → Nat → Nat
  | 0, _ => 0
  | fuel + 1, n => if n = 0 then 0 else bitLenAux fuel (n / 2) + 1

/-- Number of binary digits of `n` (`0` for `0`). -/
def bitLen (n : Nat) : Nat := bitLenAux n n

/-- The fraction `num / den` scaled by `2 ^ (-e)`, as a numerator and a denominator. -/
def scale2 (num den : Nat) (e : Int) : Nat × Nat :=
  if 0 ≤ e then (num, den * 2 ^ e.toNat) else (num * 2 ^ (-e).toNat, den)

/-- `⌊log₂ (num / den)⌋` for positive `num` and `den`. -/
def floorLog2 (num den : Nat) : Int :=
  let k : Int := (bitLen num : Int) - (bitLen den : Int)
  let s := scale2 num den k
  if s.2 ≤ s.1 then k else k - 1

/-- Round to the nearest integer, ties to even, the quotient `n / d`. -/
def roundHalfEven (n d : Nat) : Nat :=
  let q := n / d
  let r := n % d
  if 2 * r < d then q else if d < 2 * r then q + 1 else if q % 2 = 0 then q else q + 1

/-- The `float64` nearest to `± num / den` (ties to even), as `strconv.ParseFloat(s, 64)`
computes it; `none` when the rounded magnitude exceeds the largest finite `float64`, which
`ParseFloat` reports as a range error. Underflow is no error. -/
def roundToF64 (neg : Bool) (num den : Nat) : Option F64 :=
  if num = 0 then some ⟨neg, 0, -1074⟩
  else
    let e := max (floorLog2 num den - 52) (-1074)
    let s := scale2 num den e
    let m := roundHalfEven s.1 s.2
    let m1 := if m = 2 ^ 53 then 2 ^ 52 else m
    let e1 := if m = 2 ^ 53 then e + 1 else e
    if 971 < e1 then none else some ⟨neg, m1, e1⟩

/-- The numerator and denominator of the magnitude of a number literal. -/
def JNumber.frac (n : JNumber) : Nat × Nat :=
  if 0 ≤ n.exp10 then (n.digits * 10 ^ n.exp10.toNat, 1) else (n.digits, 10 ^ (-n.exp10).toNat)

/-- Errors of `json.Unmarshal`. -/
inductive JsonError where
  | malformed
  | exceededMaxDepth
  | typeMismatch (value : String)
  | numberRange (n : JNumber)
  deriving DecidableEq

mutual
/-- The nesting depth of a JSON text: how many arrays and objects are open at its deepest
point. -/
def JSON.depth : JSON → Nat
  | .null => 0
  | .bool _ => 0
  | .num _ => 0
  | .str _ => 0
  | .arr items => itemsDepth items + 1
  | .obj members => membersDepth members + 1
/-- The greatest depth among the elements of an array. -/
def itemsDepth : List JSON → Nat
  | [] => 0
  | x :: xs => max x.depth (itemsDepth xs)
/-- The greatest depth among the member values of an object. -/
def membersDepth : List (String × JSON) → Nat
  | [] => 0
  | (_, v) :: rest => max v.depth (membersDepth rest)
end

/-- The constant `maxNestingDepth` of the scanner of `encoding/json`. -/
def maxNestingDepth : Nat := 10000

/-- The first step of `json.Unmarshal`, `checkValid`, on a text that parses: the scanner
refuses a text nested deeper than `maxNestingDepth` with the syntax error "exceeded max
depth". -/
def checkValid (doc : JSON) : Option JsonError :=
  if maxNestingDepth < doc.depth then some .exceededMaxDepth else none

/-- The decoder's `convertNumber`: `strconv.ParseFloat(s, 64)`, whose failure becomes an
`UnmarshalTypeError`. -/
def convertNumber (n : JNumber) : Except JsonError F64 :=
  match roundToF64 n.neg n.frac.1 n.frac.2 with
  | some f => .ok f
  | none => .error (.numberRange n)

/-- The decoder's `saveError`: the first error is kept and decoding goes on. -/
def saveError (saved : Option JsonError) (e : JsonError) : Option JsonError :=
  match saved with
  | none => some e
  | some e0 => some e0

/-- What `json.Unmarshal` stores in an `interface{}`. A map is kept as a list sorted by key
without repeated keys. -/
inductive GoVal where
  | nil
  | bool (b : Bool)
  | float (f : F64)
  | string (s : String)
  | slice (xs : List GoVal)
  | map (m : List (String × GoVal))

/-- Order of Go strings (bytewise, which on UTF-8 text is the order of the code points). -/
def strLt : List Char → List Char → Bool
  | _, [] => false
  | [], _ :: _ => true
  | a :: as, b :: bs => a.toNat < b.toNat || (a == b && strLt as bs)

/-- Assignment `m[k] = v` on a map kept sorted by key. -/
def mapInsert (k : String) (v : GoVal) : List (String × GoVal) → List (String × GoVal)
  | [] => [(k, v)]
  | (k0, v0) :: rest =>
      if k = k0 then (k, v) :: rest
      else if strLt k.data k0.data then (k, v) :: (k0, v0) :: rest
      else (k0, v0) :: mapInsert k v rest

mutual
/-- The decoder's `valueInterface`: a JSON value decoded into an empty `interface{}`, with
the saved error passed along. A number out of range is left nil and its error saved. -/
def valueInterface : JSON → Option JsonError → GoVal × Option JsonError
  | .null, saved => (.nil, saved)
  | .bool b, saved => (.bool b, saved)
  | .num n, saved =>
      match convertNumber n with
      | .ok f => (.float f, saved)
      | .error e => (.nil, saveError saved e)
  | .str s, saved => (.string s, saved)
  | .arr items, saved => ((.slice (arrayInterface items saved).1), (arrayInterface items saved).2)
  | .obj members, saved =>
      ((.map (objectInterface members [] saved).1), (objectInterface members [] saved).2)
/-- The decoder's `arrayInterface`. -/
def arrayInterface : List JSON → Option JsonError → List GoVal × Option JsonError
  | [], saved => ([], saved)
  | x :: xs, saved =>
      ((valueInterface x saved).1 :: (arrayInterface xs (valueInterface x saved).2).1,
        (arrayInterface xs (valueInterface x saved).2).2)
/-- The decoder's `objectInterface`: members are assigned in order, a repeated key
overwrites. -/
def objectInterface : List (String × JSON) → List (String × GoVal) → Option JsonError →
    List (String × GoVal) × Option JsonError
  | [], m, saved => (m, saved)
  | (k, v) :: rest, m, saved =>
      objectInterface rest (mapInsert k (valueInterface v saved).1 m) (valueInterface v saved).2
end

/-! ## `strconv.ParseInt` -/

/-- The two failures `strconv` reports, `ErrSyntax` and `ErrRange`. -/
inductive NumError where
  | errSyntax
  | errRange
  deriving DecidableEq

/-- The value of a decimal digit. -/
def digitVal (c : Char) : Option Nat :=
  if '0' ≤ c ∧ c ≤ '9' then some (c.toNat - '0'.toNat) else none

/-- The cutoff of `ParseUint` in base 10, `maxUint64/10 + 1`. -/
def cutoff10 : Nat := (2 ^ 64 - 1) / 10 + 1

/-- The loop of `strconv.ParseUint` in base 10 over the remaining characters; `n` is the
`uint64` accumulated so far. -/
def parseUintLoop (maxVal : Nat) : List Char → Nat → Nat × Option NumError
  | [], n => (n, none)
  | c :: cs, n =>
      match digitVal c with
      | none => (0, some .errSyntax)
      | some d =>
          if cutoff10 ≤ n then (maxVal, some .errRange)
          else
            let n10 := (n * 10) % 2 ^ 64
            let n1 := (n10 + d) % 2 ^ 64
            if n1 < n10 ∨ maxVal < n1 then (maxVal, some .errRange)
            else parseUintLoop maxVal cs n1

/-- `strconv.ParseUint(s, 10, bitSize)`. -/
def ParseUint (s : List Char) (bitSize : Nat) : Nat × Option NumError :=
  if s = [] then (0, some .errSyntax) else parseUintLoop (2 ^ bitSize - 1) s 0

/-- `strconv.ParseInt(s, 10, bitSize)`: the value returned together with the error. -/
def ParseInt (s : String) (bitSize : Nat) : Int × Option NumError :=
  match s.data with
  | [] => (0, some .errSyntax)
  | c :: cs =>
      let neg : Bool := c == '-'
      let body := if c == '+' ∨ c == '-' then cs else c :: cs
      match ParseUint body bitSize with
      | (_, some .errSyntax) => (0, some .errSyntax)
      | (un, _) =>
          let cutoff : Nat := 2 ^ (bitSize - 1)
          if !neg ∧ cutoff ≤ un then (((cutoff - 1 : Nat) : Int), some .errRange)
          else if neg ∧ cutoff < un then (-(cutoff : Int), some .errRange)
          else (if neg then -(un : Int) else (un : Int), none)

/-! ## Conversions of a `float64` -/

/-- The integer part of a `float64`, rounded toward zero. -/
def F64.trunc (f : F64) : Int :=
  let a : Nat := if 0 ≤ f.exp then f.mant * 2 ^ f.exp.toNat else f.mant / 2 ^ (-f.exp).toNat
  if f.neg then -(a : Int) else (a : Int)

/-- Two's complement wrap into the `int64` range. -/
def wrapInt64 (z : Int) : Int := (z + 2 ^ 63) % 2 ^ 64 - 2 ^ 63

/-- The Go conversions `int64(v)` and, on a 64-bit target, `int(v)` of a `float64`: the
value truncated toward zero when that fits. When it does not fit the Go specification leaves
the result to the implementation; `conv` is what the platform yields there. -/
def floatToInt64 (conv : Int → Int) (v : F64) : Int :=
  if -(2 ^ 63 : Int) ≤ v.trunc ∧ v.trunc < 2 ^ 63 then v.trunc else wrapInt64 (conv v.trunc)

/-- What amd64 yields for a conversion that does not fit: the instruction `CVTTSD2SQ` returns
the smallest `int64`, whatever the value. -/
def amd64 : Int → Int := fun _ => -(2 ^ 63)

/-! ## `fmt.Sprintf("%v", value)` -/

/-- Decimal digits of `n`, most significant first, `fuel` digits at most. -/
def decDigitsAux : Nat → Nat → List Char → List Char
  | 0, _, acc => acc
  | fuel + 1, n, acc =>
      if n < 10 then Char.ofNat (48 + n) :: acc
      else decDigitsAux fuel (n / 10) (Char.ofNat (48 + n % 10) :: acc)

/-- Decimal digits of `n`, most significant first (`0` gives the one digit `0`). -/
def decDigits (n : Nat) : List Char := decDigitsAux (n + 1) n []

/-- The fraction `num / den` scaled by `10 ^ s`. -/
def scale10 (num den : Nat) (s : Int) : Nat × Nat :=
  if 0 ≤ s then (num * 10 ^ s.toNat, den) else (num, den * 10 ^ (-s).toNat)

/-- The least `j`, `fuel` at most, with `den ≤ num * 10 ^ j`. -/
def leadShift : Nat → Nat → Nat → Nat → Nat
  | 0, _, _, j => j
  | fuel + 1, num, den, j => if den ≤ num then j else leadShift fuel (num * 10) den (j + 1)

/-- The position `dp` of the decimal point of a positive `num / den`:
`10 ^ (dp - 1) ≤ num / den < 10 ^ dp`. -/
def decimalPoint (num den : Nat) : Int :=
  if den ≤ num then ((decDigits (num / den)).length : Int)
  else 1 - (leadShift den num den 0 : Int)

/-- The magnitude of a `float64` as a fraction. -/
def F64.frac (f : F64) : Nat × Nat := scale2 f.mant 1 (-f.exp)

/-- Whether the decimal `d × 10 ^ k` reads back as the `float64` `f`. -/
def readsBack (f : F64) (d : Nat) (k : Int) : Bool :=
  roundToF64 f.neg (scale10 d 1 k).1 (scale10 d 1 k).2 == some f

/-- The shortest decimal that reads back as `f`, searched from `nd` digits upward as
`strconv` does for precision `-1`: with `nd` digits the value is cut off (`lo`) or cut off and
raised by one unit (`lo + 1`); when both read back as `f` the nearer is taken, a tie going to
the even digit. The result `(d, k)` stands for `d × 10 ^ k`. -/
def shortestAux (f : F64) (dp : Int) : Nat → Nat → Nat × Int
  | 0, nd => ((scale10 f.frac.1 f.frac.2 (nd - dp)).1 / (scale10 f.frac.1 f.frac.2 (nd - dp)).2,
      dp - nd)
  | fuel + 1, nd =>
      let s := scale10 f.frac.1 f.frac.2 (nd - dp)
      let lo := s.1 / s.2
      let k : Int := dp - nd
      let okdown := readsBack f lo k
      let okup := readsBack f (lo + 1) k
      if okdown && okup then (roundHalfEven s.1 s.2, k)
      else if okdown then (lo, k)
      else if okup then (lo + 1, k)
      else shortestAux f dp fuel (nd + 1)

/-- Drop the trailing zeros of `d × 10 ^ k`, `fuel` of them at most. -/
def trimZeros : Nat → Nat → Int → Nat × Int
  | 0, d, k => (d, k)
  | fuel + 1, d, k => if d ≠ 0 ∧ d % 10 = 0 then trimZeros fuel (d / 10) (k + 1) else (d, k)

/-- The digits `d.d[:d.nd]` and the decimal point `d.dp` of the shortest decimal of `f`;
zero has no digits. -/
def shortestDigits (f : F64) : List Char × Int :=
  if f.mant = 0 then ([], 0)
  else
    let r := shortestAux f (decimalPoint f.frac.1 f.frac.2) 17 1
    let t := trimZeros 17 r.1 r.2
    (decDigits t.1, ((decDigits t.1).length : Int) + t.2)

/-- Layout `%e` of `strconv` with the given digits: `d.ddde±dd`. -/
def fmtE (digs : List Char) (dp : Int) : List Char :=
  let exp : Int := if digs = [] then 0 else dp - 1
  let first : Char := digs.headD '0'
  let more : List Char := if 1 < digs.length then '.' :: digs.tail else []
  let sign : Char := if exp < 0 then '-' else '+'
  let e := exp.natAbs
  let expDigits : List Char := if e < 10 then '0' :: decDigits e else decDigits e
  first :: (more ++ 'e' :: sign :: expDigits)

/-- Layout `%f` of `strconv` with the given digits and `prec` digits after the point. -/
def fmtF (digs : List Char) (dp : Int) (prec : Nat) : List Char :=
  let intPart : List Char :=
    if 0 < dp then digs.take dp.toNat ++ List.replicate (dp.toNat - digs.length) '0'
    else ['0']
  let fracPart : List Char :=
    if 0 < prec then
      '.' :: (List.range prec).map (fun i =>
        if 0 ≤ dp + (i : Int) ∧ dp + (i : Int) < digs.length then
          digs.getD (dp + (i : Int)).toNat '0'
        else '0')
    else []
  intPart ++ fracPart

/-- What `%v` prints for a `float64`: `strconv.AppendFloat(v, 'g', -1, 64)`, the shortest
digits laid out as `%e` when the exponent is below `-4` or at least `6`, as `%f` otherwise. -/
def formatG (f : F64) : String :=
  let digs := (shortestDigits f).1
  let dp := (shortestDigits f).2
  let exp := dp - 1
  let body : List Char :=
    if exp < -4 ∨ 6 ≤ exp then fmtE digs dp
    else fmtF digs dp ((digs.length : Int) - dp).toNat
  String.mk (if f.neg then '-' :: body else body)

/-- Join rendered items with single spaces. -/
def joinSpace : List (List Char) → List Char
  | [] => []
  | [x] => x
  | x :: y :: rest => x ++ ' ' :: joinSpace (y :: rest)

mutual
/-- The text `fmt.Sprintf("%v", value)` prints for a decoded value: `<nil>` for nil, a
string as it is, a slice as `[a b]`, a map as `map[k:v k:v]` in key order. -/
def sprintV : GoVal → List Char
  | .nil => "<nil>".data
  | .bool b => if b then "true".data else "false".data
  | .float f => (formatG f).data
  | .string s => s.data
  | .slice xs => '[' :: (joinSpace (sprintItems xs) ++ [']'])
  | .map m => "map[".data ++ (joinSpace (sprintEntries m) ++ [']'])
/-- The elements of a slice, each printed. -/
def sprintItems : List GoVal → List (List Char)
  | [] => []
  | x :: xs => sprintV x :: sprintItems xs
/-- The entries of a map, each printed as `key:value`. -/
def sprintEntries : List (String × GoVal) → List (List Char)
  | [] => []
  | (k, v) :: rest => (k.data ++ ':' :: sprintV v) :: sprintEntries rest
end

/-- The Go call `fmt.Sprintf("%v", value)`. -/
def Sprintf_v (value : GoVal) : String := String.mk (sprintV value)

/-! ## `Record` and its `UnmarshalJSON` -/

/-- The struct `Record`; `int64` and, on a 64-bit target, `int` are integers of the `int64`
range. -/
structure Record where
  ID : Int
  Username : String
  Score : Int
  Telephone : String
  Code1 : String
  Code2 : String
  deriving DecidableEq

/-- The anonymous struct `temp` of `UnmarshalJSON`. -/
structure Temp where
  ID : GoVal
  Username : String
  Score : GoVal
  Telephone : String
  Code1 : GoVal
  Code2 : GoVal

/-- The zero value of `temp`. -/
def Temp.zero : Temp := ⟨.nil, "", .nil, "", .nil, .nil⟩

/-- Whether a JSON key selects the struct field tagged `name`: the decoder takes the key that
equals the tag or equals it under case folding. The tags of this program are lower-case ASCII
without `k` or `s`, so only the ASCII letters fold onto them. -/
def keyIs (name key : String) : Bool := key.data.map Char.toLower == name.data

/-- A JSON value stored into a field of type `interface{}`. A number literal out of range
saves its error and leaves the field as it was. -/
def storeInterface (v : JSON) (old : GoVal) (saved : Option JsonError) :
    GoVal × Option JsonError :=
  match v with
  | .num n =>
      match convertNumber n with
      | .ok f => (.float f, saved)
      | .error e => (old, saveError saved e)
  | .null => (.nil, saved)
  | .bool b => (.bool b, saved)
  | .str s => (.string s, saved)
  | .arr items => valueInterface (.arr items) saved
  | .obj members => valueInterface (.obj members) saved

/-- A JSON value stored into a field of type `string`: a string is copied, null leaves the
field as it was, anything else saves an `UnmarshalTypeError` and is skipped. -/
def storeString (v : JSON) (old : String) (saved : Option JsonError) :
    String × Option JsonError :=
  match v with
  | .str s => (s, saved)
  | .null => (old, saved)
  | .bool _ => (old, saveError saved (.typeMismatch "bool"))
  | .num _ => (old, saveError saved (.typeMismatch "number"))
  | .arr _ => (old, saveError saved (.typeMismatch "array"))
  | .obj _ => (old, saveError saved (.typeMismatch "object"))

/-- One member of the row object decoded into `temp`; a key that selects no field is
skipped. -/
def decodeMember (t : Temp) (saved : Option JsonError) (key : String) (v : JSON) :
    Temp × Option JsonError :=
  if keyIs "id" key then
    ({ t with ID := (storeInterface v t.ID saved).1 }, (storeInterface v t.ID saved).2)
  else if keyIs "name" key then
    ({ t with Username := (storeString v t.Username saved).1 },
      (storeString v t.Username saved).2)
  else if keyIs "id_card" key then
    ({ t with Score := (storeInterface v t.Score saved).1 }, (storeInterface v t.Score saved).2)
  else if keyIs "phone" key then
    ({ t with Telephone := (storeString v t.Telephone saved).1 },
      (storeString v t.Telephone saved).2)
  else if keyIs "affiliation" key then
    ({ t with Code1 := (storeInterface v t.Code1 saved).1 }, (storeInterface v t.Code1 saved).2)
  else if keyIs "additional_info" key then
    ({ t with Code2 := (storeInterface v t.Code2 saved).1 }, (storeInterface v t.Code2 saved).2)
  else (t, saved)

/-- The members of the row object decoded in the order of the text. -/
def decodeMembers : List (String × JSON) → Temp → Option JsonError → Temp × Option JsonError
  | [], t, saved => (t, saved)
  | (k, v) :: rest, t, saved =>
      decodeMembers rest (decodeMember t saved k v).1 (decodeMember t saved k v).2

/-- The decoding step of `json.Unmarshal(b, &temp)`, on a text that `checkValid` has let
through: null leaves `temp` zero, an object is decoded member by member, any other value is a
type error; the saved error, if any, is what the call returns. -/
def decodeTemp (b : JSON) : Except JsonError Temp :=
  match b with
  | .null => .ok Temp.zero
  | .obj members =>
      match (decodeMembers members Temp.zero none).2 with
      | none => .ok (decodeMembers members Temp.zero none).1
      | some e => .error e
  | .bool _ => .error (.typeMismatch "bool")
  | .num _ => .error (.typeMismatch "number")
  | .str _ => .error (.typeMismatch "string")
  | .arr _ => .error (.typeMismatch "array")

/-- The call `json.Unmarshal(b, &temp)` of `UnmarshalJSON`: `checkValid`, then the decoding. -/
def unmarshalTemp (b : JSON) : Except JsonError Temp :=
  match checkValid b with
  | some err => .error err
  | none => decodeTemp b

/-- Errors of the two closures of `UnmarshalJSON`. -/
inductive CoerceError where
  | strconv (e : NumError)
  | invalidType
  deriving DecidableEq

/-- The closure `toInt64`. -/
def toInt64 (conv : Int → Int) (value : GoVal) : Int × Option CoerceError :=
  match value with
  | .string v => ((ParseInt v 64).1, (ParseInt v 64).2.map CoerceError.strconv)
  | .float v => (floatToInt64 conv v, none)
  | _ => (0, some .invalidType)

/-- The closure `toInt`; `int` is taken 64 bits wide, as on amd64 and arm64. -/
def toInt (conv : Int → Int) (value : GoVal) : Int × Option CoerceError :=
  match value with
  | .string v => ((ParseInt v 32).1, (ParseInt v 32).2.map CoerceError.strconv)
  | .float v => (floatToInt64 conv v, none)
  | _ => (0, some .invalidType)

/-- The method `(*Record).UnmarshalJSON`. On success it assigns all six fields of the
receiver, so the record it leaves does not depend on what the receiver held before; on
failure it returns the error of `json.Unmarshal`. -/
def Record.UnmarshalJSON (conv : Int → Int) (b : JSON) : Except JsonError Record :=
  match unmarshalTemp b with
  | .error err => .error err
  | .ok temp =>
      .ok { ID := (toInt64 conv temp.ID).1
            Username := temp.Username
            Score := (toInt conv temp.Score).1
            Telephone := temp.Telephone
            Code1 := Sprintf_v temp.Code1
            Code2 := Sprintf_v temp.Code2 }

/-! ## The store and `fetchRecords` -/

/-- A response body: text that is no JSON document, or a JSON document. -/
inductive Body where
  | text (raw : String)
  | document (doc : JSON)

/-- What `http.Post` yields: an error, or a response with its status code and its body
(`none` when reading the body fails). -/
inductive Reply where
  | failed (err : String)
  | response (status : Nat) (body : Option Body)

/-- The store at `127.0.0.1:8123`: its reply to a command, given the commands sent before. -/
abbrev Store := List String → String → Reply

/-- The call `http.Post("http://127.0.0.1:8123/", "text/plain", strings.NewReader(query))`; the
command is appended to the list of commands sent. -/
def httpPost (store : Store) (query : String) (sent : List String) : Reply × List String :=
  (store sent query, sent ++ [query])

/-- The constant `http.StatusOK`. -/
def StatusOK : Nat := 200

/-- Errors the program returns. -/
inductive Error where
  | errorf (msg : String)
  | transport (err : String)
  | readBody
  | status (what : String) (code : Nat) (body : Option Body)
  | decode (err : JsonError)

/-- A JSON array decoded into `[]Record`: each element goes through `UnmarshalJSON`, in
order, and the first error ends the decoding. -/
def decodeRecords (conv : Int → Int) : List JSON → Except JsonError (List Record)
  | [] => .ok []
  | x :: xs =>
      match Record.UnmarshalJSON conv x with
      | .error err => .error err
      | .ok r =>
          match decodeRecords conv xs with
          | .error err => .error err
          | .ok rs => .ok (r :: rs)

/-- The members of the response object decoded into `ClickHouseResponse`: a key that folds to
`data` is stored into `Data`, others are skipped. An error of `UnmarshalJSON` is returned at
once; a value of the wrong type saves its error and decoding goes on. -/
def decodeEnvelope (conv : Int → Int) :
    List (String × JSON) → List Record → Option JsonError →
      Except JsonError (List Record × Option JsonError)
  | [], data, saved => .ok (data, saved)
  | (k, v) :: rest, data, saved =>
      if keyIs "data" k then
        match v with
        | .null => decodeEnvelope conv rest [] saved
        | .arr items =>
            match decodeRecords conv items with
            | .error err => .error err
            | .ok rs => decodeEnvelope conv rest rs saved
        | .bool _ => decodeEnvelope conv rest data (saveError saved (.typeMismatch "bool"))
        | .num _ => decodeEnvelope conv rest data (saveError saved (.typeMismatch "number"))
        | .str _ => decodeEnvelope conv rest data (saveError saved (.typeMismatch "string"))
        | .obj _ => decodeEnvelope conv rest data (saveError saved (.typeMismatch "object"))
      else decodeEnvelope conv rest data saved

/-- The struct `ClickHouseResponse` of `fetchRecords`. -/
structure ClickHouseResponse where
  Data : List Record

/-- The decoding step of `json.Unmarshal(body, &chResp)` on the zero value of `chResp`, on a
text that `checkValid` has let through. -/
def decodeResponse (conv : Int → Int) (doc : JSON) : Except JsonError ClickHouseResponse :=
  match doc with
  | .null => .ok ⟨[]⟩
  | .obj members =>
      match decodeEnvelope conv members [] none with
      | .error err => .error err
      | .ok (data, none) => .ok ⟨data⟩
      | .ok (_, some err) => .error err
  | .bool _ => .error (.typeMismatch "bool")
  | .num _ => .error (.typeMismatch "number")
  | .str _ => .error (.typeMismatch "string")
  | .arr _ => .error (.typeMismatch "array")

/-- The call `json.Unmarshal(body, &chResp)`: a body that is no JSON text is a syntax error;
otherwise `checkValid`, then the decoding. -/
def unmarshalResponse (conv : Int → Int) (body : Body) : Except JsonError ClickHouseResponse :=
  match body with
  | .text _ => .error .malformed
  | .document doc =>
      match checkValid doc with
      | some err => .error err
      | none => decodeResponse conv doc

/-- The function `fetchRecords`: the result it returns, and the commands sent to the store
once it has returned. -/
def fetchRecords (conv : Int → Int) (store : Store) (sortOrder : String) (sent : List String) :
    Except Error (List Record) × List String :=
  let query := "SELECT * FROM clickhouse_sec ORDER BY id " ++ sortOrder ++ " FORMAT JSON"
  if MatchString sortOrder then (.error (.errorf "mamba out"), sent)
  else
    match httpPost store query sent with
    | (.failed err, sent1) => (.error (.transport err), sent1)
    | (.response status body, sent1) =>
        if status ≠ StatusOK then
          (.error (.status "failed to fetch records" status body), sent1)
        else
          match body with
          | none => (.error .readBody, sent1)
          | some b =>
              match unmarshalResponse conv b with
              | .error err => (.error (.decode err), sent1)
              | .ok chResp => (.ok chResp.Data, sent1)

/-! ## Provisioning at start-up -/

/-- The function `checkTableExists`. -/
def checkTableExists (store : Store) (tableName : String) (sent : List String) :
    Except Error Bool × List String :=
  match httpPost store ("desc default." ++ tableName) sent with
  | (.failed err, sent1) => (.error (.transport err), sent1)
  | (.response status _, sent1) =>
      if status = StatusOK then (.ok true, sent1) else (.ok false, sent1)

/-- The command of `createTable`. -/
def createTableQuery : String :=
  "CREATE TABLE default.clickhouse_sec (\n               id Int64,\n               name String,\n               id_card String,\n               phone String,\n               affiliation String,\n               additional_info String\n             ) ENGINE = MergeTree() ORDER BY id"

/-- The command of `insertMockData`. -/
def insertMockDataQuery : String :=
  "INSERT INTO default.clickhouse_sec (id,name,id_card,phone,affiliation,additional_info) VALUES \n             (2,'hacker','3333','15534212521','15534212521','15534212521'),\n             (1,'gacj','33333333','15534212521','1223321','hacker')"

/-- The function `createTable`. -/
def createTable (store : Store) (sent : List String) : Except Error Unit × List String :=
  match httpPost store createTableQuery sent with
  | (.failed err, sent1) => (.error (.transport err), sent1)
  | (.response status body, sent1) =>
      if status ≠ StatusOK then
        (.error (.status "failed to create clickhouse_sec" status body), sent1)
      else (.ok (), sent1)

/-- The function `insertMockData`. -/
def insertMockData (store : Store) (sent : List String) : Except Error Unit × List String :=
  match httpPost store insertMockDataQuery sent with
  | (.failed err, sent1) => (.error (.transport err), sent1)
  | (.response status body, sent1) =>
      if status ≠ StatusOK then
        (.error (.status "failed to insert mock data" status body), sent1)
      else (.ok (), sent1)

/-- The function `createTableAndInsertData`. -/
def createTableAndInsertData (store : Store) (sent : List String) :
    Except Error Unit × List String :=
  match createTable store sent with
  | (.error err, sent1) => (.error err, sent1)
  | (.ok _, sent1) =>
      match insertMockData store sent1 with
      | (.error err, sent2) => (.error err, sent2)
      | (.ok _, sent2) => (.ok (), sent2)

/-- The start of `main`, up to the point where the servers are set up: `.error` when `main`
prints a failure and returns, `.ok` when it goes on to serve. -/
def main (store : Store) (sent : List String) : Except Error Unit × List String :=
  match checkTableExists store "clickhouse_sec" sent with
  | (.error err, sent1) => (.error err, sent1)
  | (.ok tableExists, sent1) =>
      if !tableExists then
        match createTableAndInsertData store sent1 with
        | (.error err, sent2) => (.error err, sent2)
        | (.ok _, sent2) => (.ok (), sent2)
      else (.ok (), sent1)


/-! ## Statements the theorems compare the code with -/

/-- `Matches re m`: the text `m`, from its first character to its last, is one match of the
pattern `re`. -/
inductive Matches : List Atom → List Char → Prop
  | nil : Matches [] []
  | one {p : Char → Bool} {c : Char} {rest : List Atom} {m : List Char} :
      p c = true → Matches rest m → Matches (Atom.one p :: rest) (c :: m)
  | last {p : Char → Bool} {c : Char} {rest : List Atom} {m : List Char} :
      p c = true → Matches rest m → Matches (Atom.many1 p :: rest) (c :: m)
  | more {p : Char → Bool} {c : Char} {rest : List Atom} {m : List Char} :
      p c = true → Matches (Atom.many1 p :: rest) m → Matches (Atom.many1 p :: rest) (c :: m)

/-- The token holds the lower-case text `pat` as a substring when letters are compared
without regard to case. -/
def containsIgnoreCase (pat tok : String) : Prop :=
  ∃ p m s : List Char, tok.data = p ++ m ++ s ∧ m.map Char.toLower = pat.data

/-- A word equal to `w` up to the case of its letters, in the sense of `(?i)`. -/
def EqFold (w : String) (m : List Char) : Prop :=
  List.Forall₂ (fun r c => foldClass r c = true) w.data m

/-- The marker as the specification words it: `select`, zero or more whitespace characters,
one asterisk, zero or more whitespace characters, `from`, anywhere in the token and without
regard to case. -/
def specMarker (tok : String) : Prop :=
  ∃ p sel ws1 ws2 frm s : List Char,
    tok.data = p ++ (sel ++ ws1 ++ ['*'] ++ ws2 ++ frm) ++ s ∧
    EqFold "select" sel ∧ (∀ c ∈ ws1, isSpaceRE2 c = true) ∧
    (∀ c ∈ ws2, isSpaceRE2 c = true) ∧ EqFold "from" frm

/-- The marker the pattern of the code describes: `select`, one or more whitespace
characters, one or more asterisks, one or more whitespace characters, `from`, anywhere in the
token and without regard to case. -/
def codeMarker (tok : String) : Prop :=
  ∃ p sel ws1 stars ws2 frm s : List Char,
    tok.data = p ++ (sel ++ ws1 ++ stars ++ ws2 ++ frm) ++ s ∧
    EqFold "select" sel ∧ (ws1 ≠ [] ∧ ∀ c ∈ ws1, isSpaceRE2 c = true) ∧
    (stars ≠ [] ∧ ∀ c ∈ stars, c = '*') ∧
    (ws2 ≠ [] ∧ ∀ c ∈ ws2, isSpaceRE2 c = true) ∧ EqFold "from" frm

/-- The four shapes of the marker as the specification words it, by whether each run of
whitespace is empty. -/
def specPatterns : List (List Atom) :=
  [ foldLit "select" ++ ([Atom.one isStar] ++ foldLit "from"),
    foldLit "select" ++ ([Atom.many1 isSpaceRE2] ++ ([Atom.one isStar] ++ foldLit "from")),
    foldLit "select" ++ ([Atom.one isStar] ++ ([Atom.many1 isSpaceRE2] ++ foldLit "from")),
    foldLit "select" ++ ([Atom.many1 isSpaceRE2] ++ ([Atom.one isStar] ++
      ([Atom.many1 isSpaceRE2] ++ foldLit "from"))) ]

/-- The validation error of `fetchRecords`. -/
def mambaOut : Error := Error.errorf "mamba out"

/-- The command `fetchRecords` builds from the sort token. -/
def selectQuery (sortOrder : String) : String :=
  "SELECT * FROM clickhouse_sec ORDER BY id " ++ sortOrder ++ " FORMAT JSON"

mutual
/-- Whether every number literal inside the value lies within the `float64` range. -/
def JSON.numbersFit : JSON → Bool
  | .null => true
  | .bool _ => true
  | .num n => (roundToF64 n.neg n.frac.1 n.frac.2).isSome
  | .str _ => true
  | .arr items => itemsFit items
  | .obj members => membersFit members
/-- The elements of an array all satisfy `numbersFit`. -/
def itemsFit : List JSON → Bool
  | [] => true
  | x :: xs => x.numbersFit && itemsFit xs
/-- The member values of an object all satisfy `numbersFit`. -/
def membersFit : List (String × JSON) → Bool
  | [] => true
  | (_, v) :: rest => v.numbersFit && membersFit rest
end

/-- A JSON value that is a string or null. -/
def JSON.isTextOrNull : JSON → Bool
  | .str _ => true
  | .null => true
  | _ => false

/-- The value a row object gives the field `name`: that of the last member whose key is the
name, letters compared without regard to case; `none` when there is no such member. -/
def fieldValue (name : String) : List (String × JSON) → Option JSON
  | [] => none
  | (k, v) :: rest =>
      match fieldValue name rest with
      | some w => some w
      | none => if keyIs name k then some v else none

/-- The value a raw row gives the field `name`; a row that is no object gives none. -/
def rowField (name : String) : JSON → Option JSON
  | .obj members => fieldValue name members
  | _ => none

/-- What the decoder leaves in an `interface{}` field tagged `name` once the row is decoded
without error: the decoded value of the field, nil when the row gives it none. -/
def decodedField (name : String) (row : JSON) : GoVal :=
  match rowField name row with
  | some v => (valueInterface v none).1
  | none => GoVal.nil

/-- The number a run of decimal digits denotes when written after the digits of `acc`; `none`
when a character is no decimal digit. -/
def digitsValue : List Char → Nat → Option Nat
  | [], acc => some acc
  | c :: cs, acc =>
      match digitVal c with
      | none => none
      | some d => digitsValue cs (acc * 10 + d)

/-- A text without its leading sign, if it has one. -/
def unsignedPart : List Char → List Char
  | [] => []
  | c :: cs => if c = '+' ∨ c = '-' then cs else c :: cs

/-- The integer a text denotes in base 10: an optional sign `+` or `-`, then one or more
decimal digits. -/
def decimalValue (s : String) : Option Int :=
  if unsignedPart s.data = [] then none
  else
    match digitsValue (unsignedPart s.data) 0 with
    | none => none
    | some n => if s.data.head? = some '-' then some (-(n : Int)) else some (n : Int)

/-- A text that is no number to `strconv.ParseInt` and is found out before any overflow: after
the optional sign it is empty, or it has a character that is no decimal digit while the
digits before that character denote a number below `2 ^ 64`. -/
def SyntaxFailure (s : String) : Prop :=
  unsignedPart s.data = [] ∨
    ∃ (ds : List Char) (c : Char) (rest : List Char) (v : Nat),
      unsignedPart s.data = ds ++ c :: rest ∧ digitsValue ds 0 = some v ∧ v < 2 ^ 64 ∧
        digitVal c = none

/-- A row as the store prints the first seed row of `insertMockData` (a 64-bit integer column
is printed quoted). -/
def seedRow1 : JSON :=
  JSON.obj [("id", JSON.str "2"), ("name", JSON.str "hacker"), ("id_card", JSON.str "3333"),
    ("phone", JSON.str "15534212521"), ("affiliation", JSON.str "15534212521"),
    ("additional_info", JSON.str "15534212521")]

/-- The second seed row, with its numbers printed bare. -/
def seedRow2 : JSON :=
  JSON.obj [("id", JSON.num ⟨false, 1, 0⟩), ("name", JSON.str "gacj"),
    ("id_card", JSON.num ⟨false, 33333333, 0⟩), ("phone", JSON.str "15534212521"),
    ("affiliation", JSON.num ⟨false, 1223321, 0⟩), ("additional_info", JSON.str "hacker")]

/-- The response envelope `{"data": [...]}` around the given rows. -/
def envelope (rows : List JSON) : Body := Body.document (JSON.obj [("data", JSON.arr rows)])

/-- The value `v` wrapped in `n` arrays, `[[...v...]]`. -/
def nest : Nat → JSON → JSON
  | 0, v => v
  | n + 1, v => JSON.arr [nest n v]

/-! ## The sort-token filter: theorems -/

theorem matches_append {a b : List Atom} {m1 m2 : List Char}
    (h1 : Matches a m1) (h2 : Matches b m2) : Matches (a ++ b) (m1 ++ m2) := by
  induction h1 with
  | nil => simpa using h2
  | one hp _ ih => exact Matches.one hp ih
  | last hp _ ih => exact Matches.last hp ih
  | more hp _ ih => exact Matches.more hp ih

theorem matches_append_inv {b re : List Atom} {m : List Char} (h : Matches re m) :
    ∀ a : List Atom, a ++ b = re →
      ∃ m1 m2, m = m1 ++ m2 ∧ Matches a m1 ∧ Matches b m2 := by
  induction h with
  | nil =>
      intro a ha
      have h0 := List.append_eq_nil.mp ha
      exact ⟨[], [], rfl, h0.1 ▸ Matches.nil, h0.2 ▸ Matches.nil⟩
  | @one p c rest m hp hm ih =>
      intro a ha
      cases a with
      | nil =>
          simp only [List.nil_append] at ha
          exact ⟨[], c :: m, rfl, Matches.nil, ha ▸ Matches.one hp hm⟩
      | cons x a1 =>
          simp only [List.cons_append, List.cons.injEq] at ha
          obtain ⟨m1, m2, hmm, hm1, hm2⟩ := ih a1 ha.2
          exact ⟨c :: m1, m2, by simp [hmm], ha.1 ▸ Matches.one hp hm1, hm2⟩
  | @last p c rest m hp hm ih =>
      intro a ha
      cases a with
      | nil =>
          simp only [List.nil_append] at ha
          exact ⟨[], c :: m, rfl, Matches.nil, ha ▸ Matches.last hp hm⟩
      | cons x a1 =>
          simp only [List.cons_append, List.cons.injEq] at ha
          obtain ⟨m1, m2, hmm, hm1, hm2⟩ := ih a1 ha.2
          exact ⟨c :: m1, m2, by simp [hmm], ha.1 ▸ Matches.last hp hm1, hm2⟩
  | @more p c rest m hp hm ih =>
      intro a ha
      cases a with
      | nil =>
          simp only [List.nil_append] at ha
          exact ⟨[], c :: m, rfl, Matches.nil, ha ▸ Matches.more hp hm⟩
      | cons x a1 =>
          simp only [List.cons_append, List.cons.injEq] at ha
          obtain ⟨m1, m2, hmm, hm1, hm2⟩ :=
            ih (Atom.many1 p :: a1) (by simp [ha.2])
          exact ⟨c :: m1, m2, by simp [hmm], ha.1 ▸ Matches.more hp hm1, hm2⟩

theorem matches_append_iff {a b : List Atom} {m : List Char} :
    Matches (a ++ b) m ↔ ∃ m1 m2, m = m1 ++ m2 ∧ Matches a m1 ∧ Matches b m2 := by
  constructor
  · intro h
    exact matches_append_inv h a rfl
  · rintro ⟨m1, m2, rfl, h1, h2⟩
    exact matches_append h1 h2


theorem matches_many1_iff {p : Char → Bool} {m : List Char} :
    Matches [Atom.many1 p] m ↔ m ≠ [] ∧ ∀ c ∈ m, p c = true := by
  constructor
  · intro h
    generalize hre : [Atom.many1 p] = re at h
    induction h with
    | nil => cases hre
    | one _ _ _ => cases hre
    | @last q c rest m hp hm _ =>
        simp only [List.cons.injEq, Atom.many1.injEq] at hre
        obtain ⟨rfl, rfl⟩ := hre
        cases hm
        simpa using hp
    | @more q c rest m hp hm ih =>
        simp only [List.cons.injEq, Atom.many1.injEq] at hre
        obtain ⟨rfl, rfl⟩ := hre
        have h1 := ih rfl
        refine ⟨by simp, ?_⟩
        intro d hd
        rcases List.mem_cons.mp hd with rfl | hd
        · exact hp
        · exact h1.2 d hd
  · rintro ⟨hne, hall⟩
    induction m with
    | nil => exact absurd rfl hne
    | cons c m ih =>
        have hc : p c = true := hall c (List.mem_cons_self _ _)
        cases m with
        | nil => exact Matches.last hc Matches.nil
        | cons d m1 =>
            exact Matches.more hc
              (ih (by simp) (fun x hx => hall x (List.mem_cons_of_mem _ hx)))

theorem matches_ones_iff {f : Char → Char → Bool} {w m : List Char} :
    Matches (w.map (fun r => Atom.one (f r))) m ↔
      List.Forall₂ (fun r c => f r c = true) w m := by
  induction w generalizing m with
  | nil =>
      constructor
      · intro h
        cases h
        exact List.Forall₂.nil
      · intro h
        cases h
        exact Matches.nil
  | cons r w ih =>
      constructor
      · intro h
        cases h with
        | one hp hm => exact List.Forall₂.cons hp (ih.mp hm)
      · intro h
        cases h with
        | cons hp hm => exact Matches.one hp (ih.mpr hm)

theorem matches_foldLit_iff {w : String} {m : List Char} :
    Matches (foldLit w) m ↔ EqFold w m := by
  unfold foldLit EqFold
  exact matches_ones_iff

theorem matchHere_iff (re : List Atom) (cs : List Char) :
    matchHere re cs = true ↔ ∃ m s, cs = m ++ s ∧ Matches re m := by
  induction cs generalizing re with
  | nil =>
      cases re with
      | nil => simp [matchHere]; exact Matches.nil
      | cons a rest =>
          cases a <;> simp [matchHere] <;> (intro h; cases h)
  | cons c cs ih =>
      cases re with
      | nil => exact ⟨fun _ => ⟨[], c :: cs, rfl, Matches.nil⟩, fun _ => rfl⟩
      | cons a rest =>
          cases a with
          | one p =>
              simp only [matchHere, Bool.and_eq_true, ih]
              constructor
              · rintro ⟨hp, m, s, rfl, hm⟩
                exact ⟨c :: m, s, rfl, Matches.one hp hm⟩
              · rintro ⟨m, s, hcs, hm⟩
                cases hm with
                | one hp hm1 =>
                    simp only [List.cons_append, List.cons.injEq] at hcs
                    obtain ⟨rfl, rfl⟩ := hcs
                    exact ⟨hp, _, s, rfl, hm1⟩
          | many1 p =>
              simp only [matchHere, Bool.and_eq_true, Bool.or_eq_true, ih]
              constructor
              · rintro ⟨hp, ⟨m, s, rfl, hm⟩ | ⟨m, s, rfl, hm⟩⟩
                · exact ⟨c :: m, s, rfl, Matches.last hp hm⟩
                · exact ⟨c :: m, s, rfl, Matches.more hp hm⟩
              · rintro ⟨m, s, hcs, hm⟩
                cases hm with
                | last hp hm1 =>
                    simp only [List.cons_append, List.cons.injEq] at hcs
                    obtain ⟨rfl, rfl⟩ := hcs
                    exact ⟨hp, Or.inl ⟨_, s, rfl, hm1⟩⟩
                | more hp hm1 =>
                    simp only [List.cons_append, List.cons.injEq] at hcs
                    obtain ⟨rfl, rfl⟩ := hcs
                    exact ⟨hp, Or.inr ⟨_, s, rfl, hm1⟩⟩

theorem matchAnywhere_iff (re : List Atom) (cs : List Char) :
    matchAnywhere re cs = true ↔ ∃ p m s, cs = p ++ m ++ s ∧ Matches re m := by
  induction cs with
  | nil =>
      simp only [matchAnywhere, matchHere_iff]
      constructor
      · rintro ⟨m, s, h, hm⟩
        exact ⟨[], m, s, by simpa using h, hm⟩
      · rintro ⟨p, m, s, h, hm⟩
        have h1 : p = [] ∧ m = [] ∧ s = [] := by simpa [and_assoc] using h.symm
        exact ⟨m, s, by simp [h1.2.1, h1.2.2], hm⟩
  | cons c cs ih =>
      simp only [matchAnywhere, Bool.or_eq_true, matchHere_iff, ih]
      constructor
      · rintro (⟨m, s, h, hm⟩ | ⟨p, m, s, h, hm⟩)
        · exact ⟨[], m, s, by simpa using h, hm⟩
        · exact ⟨c :: p, m, s, by simp [h], hm⟩
      · rintro ⟨p, m, s, h, hm⟩
        cases p with
        | nil => exact Or.inl ⟨m, s, by simpa using h, hm⟩
        | cons d p1 =>
            simp only [List.cons_append, List.cons.injEq] at h
            exact Or.inr ⟨p1, m, s, h.2, hm⟩

theorem matchAnywhere_surround {re : List Atom} {t : List Char} (p s : List Char)
    (h : matchAnywhere re t = true) : matchAnywhere re (p ++ t ++ s) = true := by
  obtain ⟨p1, m, s1, rfl, hm⟩ := (matchAnywhere_iff re t).mp h
  exact (matchAnywhere_iff re _).mpr ⟨p ++ p1, m, s1 ++ s, by simp, hm⟩


theorem sortPattern_split :
    sortPattern = foldLit "select" ++ ([Atom.many1 isSpaceRE2] ++ ([Atom.many1 isStar] ++
      ([Atom.many1 isSpaceRE2] ++ foldLit "from"))) := by
  simp [sortPattern]

theorem matches_sortPattern_iff (m : List Char) :
    Matches sortPattern m ↔
      ∃ sel ws1 stars ws2 frm : List Char,
        m = sel ++ ws1 ++ stars ++ ws2 ++ frm ∧
        EqFold "select" sel ∧ (ws1 ≠ [] ∧ ∀ c ∈ ws1, isSpaceRE2 c = true) ∧
        (stars ≠ [] ∧ ∀ c ∈ stars, c = '*') ∧
        (ws2 ≠ [] ∧ ∀ c ∈ ws2, isSpaceRE2 c = true) ∧ EqFold "from" frm := by
  have hstar : ∀ l : List Char,
      (l ≠ [] ∧ ∀ c ∈ l, isStar c = true) ↔ (l ≠ [] ∧ ∀ c ∈ l, c = '*') := by
    intro l
    simp [isStar]
  rw [sortPattern_split]
  simp only [matches_append_iff, matches_many1_iff, matches_foldLit_iff, hstar]
  constructor
  · rintro ⟨sel, r1, rfl, hsel, ws1, r2, rfl, hws1, stars, r3, rfl, hst, ws2, frm, rfl, hws2,
      hfrm⟩
    exact ⟨sel, ws1, stars, ws2, frm, by simp, hsel, hws1, hst, hws2, hfrm⟩
  · rintro ⟨sel, ws1, stars, ws2, frm, rfl, hsel, hws1, hst, hws2, hfrm⟩
    exact ⟨sel, _, by simp, hsel, ws1, _, rfl, hws1, stars, _, rfl, hst, ws2, frm, rfl, hws2,
      hfrm⟩

theorem MatchString_iff_codeMarker (tok : String) : MatchString tok = true ↔ codeMarker tok := by
  unfold MatchString codeMarker
  rw [matchAnywhere_iff]
  constructor
  · rintro ⟨p, m, s, h, hm⟩
    obtain ⟨sel, ws1, stars, ws2, frm, rfl, rest⟩ := (matches_sortPattern_iff m).mp hm
    exact ⟨p, sel, ws1, stars, ws2, frm, s, h, rest⟩
  · rintro ⟨p, sel, ws1, stars, ws2, frm, s, h, rest⟩
    exact ⟨p, _, s, h, (matches_sortPattern_iff _).mpr ⟨sel, ws1, stars, ws2, frm, rfl, rest⟩⟩

theorem toLower_cases (c : Char) :
    c.toLower = c ∨ ∃ k, 65 ≤ k ∧ k ≤ 90 ∧ c = Char.ofNat k ∧ c.toLower = Char.ofNat (k + 32) := by
  by_cases hc : c.toNat ≥ 65 ∧ c.toNat ≤ 90
  · right
    refine ⟨c.toNat, hc.1, hc.2, (Char.ofNat_toNat c).symm, ?_⟩
    simp only [Char.toLower, if_pos hc]
  · left
    simp only [Char.toLower, if_neg hc]

theorem toLower_inv (c t : Char) (h : c.toLower = t) : c = t ∨ c = t.toUpper := by
  rcases toLower_cases c with h0 | ⟨k, h1, h2, hck, hlow⟩
  · left
    rw [← h, h0]
  · right
    rw [← h, hlow, hck]
    interval_cases k <;> decide

theorem foldClass_of_toLower (c t : Char) (ht : t.toLower = t) (h : c.toLower = t) :
    foldClass t c = true := by
  unfold foldClass foldOrbit
  rcases toLower_inv c t h with rfl | rfl
  · simp [ht]
  · simp

theorem eqFold_of_map_toLower (w m : List Char) (hw : ∀ r ∈ w, r.toLower = r)
    (h : m.map Char.toLower = w) : List.Forall₂ (fun r c => foldClass r c = true) w m := by
  induction m generalizing w with
  | nil =>
      subst h
      exact List.Forall₂.nil
  | cons c m ih =>
      subst h
      refine List.Forall₂.cons ?_ (ih _ (fun r hr => hw r (List.mem_cons_of_mem _ hr)) rfl)
      exact foldClass_of_toLower c _ (hw _ (List.mem_cons_self _ _)) rfl

theorem toLower_eq_space (c : Char) (h : c.toLower = ' ') : c = ' ' := by
  rcases toLower_inv c ' ' h with rfl | rfl <;> rfl

theorem toLower_eq_star (c : Char) (h : c.toLower = '*') : c = '*' := by
  rcases toLower_inv c '*' h with rfl | rfl <;> rfl

theorem MatchString_of_containsIgnoreCase (tok : String)
    (h : containsIgnoreCase "select * from" tok) : MatchString tok = true := by
  obtain ⟨p, m, s, htok, hm⟩ := h
  rw [MatchString_iff_codeMarker]
  have hpat : "select * from".data = "select".data ++ ([' '] ++ (['*'] ++ ([' '] ++ "from".data))) := by
    decide
  rw [hpat] at hm
  obtain ⟨sel, r1, rfl, hsel, h1⟩ := List.map_eq_append_iff.mp hm
  obtain ⟨ws1, r2, rfl, hws1, h2⟩ := List.map_eq_append_iff.mp h1
  obtain ⟨st, r3, rfl, hst, h3⟩ := List.map_eq_append_iff.mp h2
  obtain ⟨ws2, frm, rfl, hws2, hfrm⟩ := List.map_eq_append_iff.mp h3
  have one_of : ∀ (l : List Char) (t : Char), l.map Char.toLower = [t] →
      ∃ c, l = [c] ∧ c.toLower = t := by
    intro l t hl
    match l, hl with
    | [c], hl => exact ⟨c, rfl, by simpa using hl⟩
  obtain ⟨a, rfl, ha⟩ := one_of ws1 ' ' hws1
  obtain ⟨b, rfl, hb⟩ := one_of st '*' hst
  obtain ⟨d, rfl, hd⟩ := one_of ws2 ' ' hws2
  have ha1 := toLower_eq_space a ha
  have hb1 := toLower_eq_star b hb
  have hd1 := toLower_eq_space d hd
  subst ha1 hb1 hd1
  refine ⟨p, sel, [' '], ['*'], [' '], frm, s, by simpa using htok, ?_, ?_, ?_, ?_, ?_⟩
  · exact eqFold_of_map_toLower _ _ (by decide) hsel
  · simp [isSpaceRE2]
  · simp
  · simp [isSpaceRE2]
  · exact eqFold_of_map_toLower _ _ (by decide) hfrm


theorem matches_one_star {m : List Char} : Matches [Atom.one isStar] m ↔ m = ['*'] := by
  constructor
  · intro h
    cases h with
    | one hp hm =>
        cases hm
        simp [isStar] at hp
        simp [hp]
  · rintro rfl
    exact Matches.one (by decide) Matches.nil

theorem specMarker_patterns (tok : String) (h : specMarker tok) :
    ∃ re ∈ specPatterns, matchAnywhere re tok.data = true := by
  obtain ⟨p, sel, ws1, ws2, frm, s, htok, hsel, hws1, hws2, hfrm⟩ := h
  have hS := matches_foldLit_iff.mpr hsel
  have hF := matches_foldLit_iff.mpr hfrm
  have hstar : Matches [Atom.one isStar] ['*'] := matches_one_star.mpr rfl
  by_cases h1 : ws1 = [] <;> by_cases h2 : ws2 = []
  · subst h1 h2
    refine ⟨_, List.mem_cons_self _ _, (matchAnywhere_iff _ _).mpr ⟨p, _, s, htok, ?_⟩⟩
    simpa using matches_append hS (matches_append hstar hF)
  · subst h1
    refine ⟨_, List.mem_cons_of_mem _ (List.mem_cons_of_mem _ (List.mem_cons_self _ _)),
      (matchAnywhere_iff _ _).mpr ⟨p, _, s, htok, ?_⟩⟩
    have hW2 := matches_many1_iff.mpr ⟨h2, hws2⟩
    simpa using matches_append hS (matches_append hstar (matches_append hW2 hF))
  · subst h2
    refine ⟨_, List.mem_cons_of_mem _ (List.mem_cons_self _ _),
      (matchAnywhere_iff _ _).mpr ⟨p, _, s, htok, ?_⟩⟩
    have hW1 := matches_many1_iff.mpr ⟨h1, hws1⟩
    simpa using matches_append hS (matches_append hW1 (matches_append hstar hF))
  · refine ⟨_, List.mem_cons_of_mem _ (List.mem_cons_of_mem _ (List.mem_cons_of_mem _
      (List.mem_cons_self _ _))), (matchAnywhere_iff _ _).mpr ⟨p, _, s, htok, ?_⟩⟩
    have hW1 := matches_many1_iff.mpr ⟨h1, hws1⟩
    have hW2 := matches_many1_iff.mpr ⟨h2, hws2⟩
    simpa using
      matches_append hS (matches_append hW1 (matches_append hstar (matches_append hW2 hF)))

theorem fetchRecords_of_match (conv : Int → Int) (store : Store) (tok : String)
    (sent : List String) (h : MatchString tok = true) :
    fetchRecords conv store tok sent = (.error mambaOut, sent) := by
  simp [fetchRecords, h, mambaOut]

theorem fetchRecords_of_no_match (conv : Int → Int) (store : Store) (tok : String)
    (sent : List String) (h : MatchString tok = false) :
    (fetchRecords conv store tok sent).1 ≠ .error mambaOut ∧
      (fetchRecords conv store tok sent).2 = sent ++ [selectQuery tok] := by
  simp only [fetchRecords, h, httpPost, selectQuery, mambaOut]
  cases store sent ("SELECT * FROM clickhouse_sec ORDER BY id " ++ tok ++ " FORMAT JSON") with
  | failed err => simp
  | response status body =>
      by_cases hs : status = StatusOK
      · cases body with
        | none => simp [hs]
        | some b =>
            cases hu : unmarshalResponse conv b <;> simp [hs, hu]
      · simp [hs]

theorem rejected_iff_match (conv : Int → Int) (store : Store) (tok : String)
    (sent : List String) :
    (fetchRecords conv store tok sent).1 = .error mambaOut ↔ MatchString tok = true := by
  constructor
  · intro h
    by_contra hm
    exact (fetchRecords_of_no_match conv store tok sent (by simpa using hm)).1 h
  · intro h
    rw [fetchRecords_of_match conv store tok sent h]


/-- C1: a sort token that holds the substring "select * from" (single spaces, letters compared
without regard to case) makes `fetchRecords` return the validation error "mamba out" with no
records, and no command is sent to the store; the token "ASC" is not rejected by the
validation step and is sent on in the command. -/
theorem fetchRecords_select_star_from (conv : Int → Int) (store : Store) (sent : List String)
    (tok : String) (h : containsIgnoreCase "select * from" tok) :
    fetchRecords conv store tok sent = (Except.error (Error.errorf "mamba out"), sent) ∧
      MatchString "ASC" = false ∧
      (fetchRecords conv store "ASC" sent).1 ≠ Except.error (Error.errorf "mamba out") ∧
      (fetchRecords conv store "ASC" sent).2 =
        sent ++ ["SELECT * FROM clickhouse_sec ORDER BY id ASC FORMAT JSON"] := by
  have hasc : MatchString "ASC" = false := by decide
  refine ⟨fetchRecords_of_match conv store tok sent (MatchString_of_containsIgnoreCase tok h),
    hasc, (fetchRecords_of_no_match conv store "ASC" sent hasc).1, ?_⟩
  exact (fetchRecords_of_no_match conv store "ASC" sent hasc).2

/-- C1 at the token of the specification, `id FROM x; SELECT * FROM secrets`, with a store
that would answer with an empty result. -/
theorem fetchRecords_select_star_from_witness :
    containsIgnoreCase "select * from" "id FROM x; SELECT * FROM secrets" ∧
      fetchRecords amd64 (fun _ _ => Reply.response 200 (some (Body.document (JSON.obj []))))
          "id FROM x; SELECT * FROM secrets" [] =
        (Except.error (Error.errorf "mamba out"), []) :=
  ⟨⟨"id FROM x; ".data, "SELECT * FROM".data, " secrets".data, by decide, by decide⟩,
    (fetchRecords_select_star_from amd64 _ [] "id FROM x; SELECT * FROM secrets"
      ⟨"id FROM x; ".data, "SELECT * FROM".data, " secrets".data, by decide, by decide⟩).1⟩

/-- C6 fails as worded: the token `select*from` holds the marker of the specification (no
whitespace on either side of the asterisk) and is not rejected but sent on to the store, and
the token `select ** from`, which does not hold that marker (two asterisks), is rejected. -/
theorem specMarker_not_the_filter :
    (specMarker "select*from" ∧
      fetchRecords amd64 (fun _ _ => Reply.failed "connection refused") "select*from" [] =
        (Except.error (Error.transport "connection refused"),
          ["SELECT * FROM clickhouse_sec ORDER BY id select*from FORMAT JSON"])) ∧
    ((specMarker "select ** from" → False) ∧
      fetchRecords amd64 (fun _ _ => Reply.failed "connection refused") "select ** from" [] =
        (Except.error (Error.errorf "mamba out"), [])) := by
  refine ⟨⟨⟨[], "select".data, [], [], "from".data, [], by decide, ?_, by simp, by simp, ?_⟩,
    by rfl⟩, ⟨?_, by rfl⟩⟩
  · exact eqFold_of_map_toLower _ _ (by decide) (by decide)
  · exact eqFold_of_map_toLower _ _ (by decide) (by decide)
  · intro h
    obtain ⟨re, hre, hm⟩ := specMarker_patterns _ h
    simp only [specPatterns, List.mem_cons, List.mem_singleton, List.not_mem_nil, or_false] at hre
    rcases hre with rfl | rfl | rfl | rfl <;> exact absurd hm (by decide)

/-- C6, amended: `fetchRecords` rejects a sort token with the validation error if and only if
the token holds, anywhere and without regard to case, the word `select`, then one or more
whitespace characters, then one or more asterisks, then one or more whitespace characters,
then the word `from`; every other token passes validation. -/
theorem fetchRecords_rejects_iff_codeMarker (conv : Int → Int) (store : Store)
    (sent : List String) (tok : String) :
    (fetchRecords conv store tok sent).1 = Except.error (Error.errorf "mamba out") ↔
      codeMarker tok :=
  (rejected_iff_match conv store tok sent).trans (MatchString_iff_codeMarker tok)

/-- C7: for a sort token that passes validation `fetchRecords` sends exactly one command, and
its text is `SELECT * FROM clickhouse_sec ORDER BY id `, then the token as it is, then
` FORMAT JSON`. -/
theorem fetchRecords_sends_one_command (conv : Int → Int) (store : Store) (sent : List String)
    (tok : String)
    (h : (fetchRecords conv store tok sent).1 ≠ Except.error (Error.errorf "mamba out")) :
    (fetchRecords conv store tok sent).2 =
      sent ++ ["SELECT * FROM clickhouse_sec ORDER BY id " ++ tok ++ " FORMAT JSON"] := by
  have hm : MatchString tok = false := by
    cases hb : MatchString tok with
    | false => rfl
    | true => exact absurd ((rejected_iff_match conv store tok sent).mpr hb) h
  exact (fetchRecords_of_no_match conv store tok sent hm).2

/-- C7 at the token `DESC; DROP TABLE x --`, which is sent on unchanged. -/
theorem fetchRecords_sends_one_command_witness :
    (fetchRecords amd64 (fun _ _ => Reply.failed "connection refused") "DESC; DROP TABLE x --" []).2 =
      ["SELECT * FROM clickhouse_sec ORDER BY id DESC; DROP TABLE x -- FORMAT JSON"] :=
  fetchRecords_sends_one_command amd64 (fun _ _ => Reply.failed "connection refused") []
    "DESC; DROP TABLE x --" (by
      have hrun : fetchRecords amd64 (fun _ _ => Reply.failed "connection refused")
          "DESC; DROP TABLE x --" [] =
          (Except.error (Error.transport "connection refused"),
            ["SELECT * FROM clickhouse_sec ORDER BY id DESC; DROP TABLE x -- FORMAT JSON"]) := by
        rfl
      rw [hrun]
      intro hne
      cases hne)

/-- C9: when the store answers the describe command for `clickhouse_sec` with a success
status, provisioning sends that command and no other (no CREATE TABLE, no INSERT) and
reports no error. -/
theorem main_table_exists (store : Store) (sent : List String) (body : Option Body)
    (h : store sent "desc default.clickhouse_sec" = Reply.response 200 body) :
    main store sent = (Except.ok (), sent ++ ["desc default.clickhouse_sec"]) := by
  have hq : "desc default." ++ "clickhouse_sec" = "desc default.clickhouse_sec" := by decide
  simp [main, checkTableExists, httpPost, hq, h, StatusOK]

/-- C9 at a store that answers every command with status 200. -/
theorem main_table_exists_witness :
    main (fun _ _ => Reply.response 200 (some (Body.text "id\tInt64"))) [] =
      (Except.ok (), ["desc default.clickhouse_sec"]) :=
  main_table_exists (fun _ _ => Reply.response 200 (some (Body.text "id\tInt64"))) []
    (some (Body.text "id\tInt64")) rfl

/-- C10: rejection by the sort-token filter is closed under surrounding text: if `fetchRecords`
rejects the token `t` with the validation error, it rejects `p ++ t ++ s` for all `p` and
`s`. -/
theorem fetchRecords_rejects_surrounded (conv : Int → Int) (store : Store) (sent : List String)
    (p t s : String)
    (h : (fetchRecords conv store t sent).1 = Except.error (Error.errorf "mamba out")) :
    (fetchRecords conv store (p ++ t ++ s) sent).1 = Except.error (Error.errorf "mamba out") := by
  have hm := (rejected_iff_match conv store t sent).mp h
  refine (rejected_iff_match conv store _ sent).mpr ?_
  unfold MatchString at hm ⊢
  simpa [String.data_append] using matchAnywhere_surround p.data s.data hm

/-- C10 at the token `select * from` placed between `1; ` and ` t`. -/
theorem fetchRecords_rejects_surrounded_witness :
    (fetchRecords amd64 (fun _ _ => Reply.failed "connection refused")
      ("1; " ++ "select * from" ++ " t") []).1 = Except.error (Error.errorf "mamba out") :=
  fetchRecords_rejects_surrounded amd64 (fun _ _ => Reply.failed "connection refused") []
    "1; " "select * from" " t" (by rfl)


/-! ## The decoder: theorems -/

theorem saveError_ne_none (saved : Option JsonError) (e : JsonError) :
    saveError saved e ≠ none := by
  cases saved <;> simp [saveError]

mutual
theorem valueInterface_saved : ∀ (v : JSON) (saved : Option JsonError),
    v.numbersFit = true → (valueInterface v saved).2 = saved
  | .null, saved, _ => by simp [valueInterface]
  | .bool _, saved, _ => by simp [valueInterface]
  | .num n, saved, h => by
      simp only [JSON.numbersFit] at h
      cases hr : roundToF64 n.neg n.frac.1 n.frac.2 with
      | none => simp [hr] at h
      | some f => simp [valueInterface, convertNumber, hr]
  | .str _, saved, _ => by simp [valueInterface]
  | .arr items, saved, h => by
      simp only [JSON.numbersFit] at h
      simp [valueInterface, arrayInterface_saved items saved h]
  | .obj members, saved, h => by
      simp only [JSON.numbersFit] at h
      simp [valueInterface, objectInterface_saved members [] saved h]
theorem arrayInterface_saved : ∀ (items : List JSON) (saved : Option JsonError),
    itemsFit items = true → (arrayInterface items saved).2 = saved
  | [], saved, _ => by simp [arrayInterface]
  | x :: xs, saved, h => by
      simp only [itemsFit, Bool.and_eq_true] at h
      simp [arrayInterface, valueInterface_saved x saved h.1, arrayInterface_saved xs saved h.2]
theorem objectInterface_saved : ∀ (members : List (String × JSON)) (m : List (String × GoVal))
    (saved : Option JsonError),
    membersFit members = true → (objectInterface members m saved).2 = saved
  | [], m, saved, _ => by simp [objectInterface]
  | (k, v) :: rest, m, saved, h => by
      simp only [membersFit, Bool.and_eq_true] at h
      simp [objectInterface, valueInterface_saved v saved h.1,
        objectInterface_saved rest _ saved h.2]
end

theorem storeInterface_saved (v : JSON) (old : GoVal) (saved : Option JsonError)
    (h : v.numbersFit = true) : (storeInterface v old saved).2 = saved := by
  cases v with
  | num n =>
      simp only [JSON.numbersFit] at h
      cases hr : roundToF64 n.neg n.frac.1 n.frac.2 with
      | none => simp [hr] at h
      | some f => simp [storeInterface, convertNumber, hr]
  | arr items => exact valueInterface_saved _ saved h
  | obj members => exact valueInterface_saved _ saved h
  | _ => simp [storeInterface]

theorem storeString_saved (v : JSON) (old : String) (saved : Option JsonError)
    (h : v.isTextOrNull = true) : (storeString v old saved).2 = saved := by
  cases v <;> simp_all [storeString, JSON.isTextOrNull]

/-- What a member has to satisfy for `decodeMember` to save no error: under the keys `name`
and `phone` a string or null, under the other four keys no number beyond `float64`. -/
theorem decodeMember_saved (t : Temp) (saved : Option JsonError) (k : String) (v : JSON)
    (h1 : keyIs "name" k = true ∨ keyIs "phone" k = true → v.isTextOrNull = true)
    (h2 : keyIs "id" k = true ∨ keyIs "id_card" k = true ∨ keyIs "affiliation" k = true ∨
      keyIs "additional_info" k = true → v.numbersFit = true) :
    (decodeMember t saved k v).2 = saved := by
  unfold decodeMember
  split_ifs with a b c d e f
  · exact storeInterface_saved _ _ _ (h2 (Or.inl a))
  · exact storeString_saved _ _ _ (h1 (Or.inl b))
  · exact storeInterface_saved _ _ _ (h2 (Or.inr (Or.inl c)))
  · exact storeString_saved _ _ _ (h1 (Or.inr d))
  · exact storeInterface_saved _ _ _ (h2 (Or.inr (Or.inr (Or.inl e))))
  · exact storeInterface_saved _ _ _ (h2 (Or.inr (Or.inr (Or.inr f))))
  · rfl

theorem decodeMembers_saved (members : List (String × JSON)) (t : Temp)
    (saved : Option JsonError)
    (h : ∀ k v, (k, v) ∈ members →
      (keyIs "name" k = true ∨ keyIs "phone" k = true → v.isTextOrNull = true) ∧
      (keyIs "id" k = true ∨ keyIs "id_card" k = true ∨ keyIs "affiliation" k = true ∨
        keyIs "additional_info" k = true → v.numbersFit = true)) :
    (decodeMembers members t saved).2 = saved := by
  induction members generalizing t saved with
  | nil => rfl
  | cons kv rest ih =>
      obtain ⟨k, v⟩ := kv
      have hkv := h k v (List.mem_cons_self _ _)
      simp only [decodeMembers]
      rw [ih _ _ (fun k1 v1 hm => h k1 v1 (List.mem_cons_of_mem _ hm))]
      exact decodeMember_saved t saved k v hkv.1 hkv.2

theorem checkValid_of_le (doc : JSON) (h : doc.depth ≤ maxNestingDepth) :
    checkValid doc = none := by
  unfold checkValid
  rw [if_neg (by omega)]

theorem checkValid_of_lt (doc : JSON) (h : maxNestingDepth < doc.depth) :
    checkValid doc = some JsonError.exceededMaxDepth := by
  unfold checkValid
  rw [if_pos h]

theorem depth_nest (n : Nat) (v : JSON) : (nest n v).depth = n + v.depth := by
  induction n with
  | zero => simp [nest]
  | succ n ih =>
      simp only [nest, JSON.depth, itemsDepth, ih]
      omega

theorem depth_single_member (k : String) (v : JSON) :
    (JSON.obj [(k, v)]).depth = v.depth + 1 := by
  show max v.depth 0 + 1 = v.depth + 1
  simp

theorem depth_envelope (rows : List JSON) :
    (JSON.obj [("data", JSON.arr rows)]).depth = itemsDepth rows + 2 := by
  show max (itemsDepth rows + 1) 0 + 1 = itemsDepth rows + 2
  simp

theorem depth_null : JSON.null.depth = 0 := rfl

theorem itemsDepth_single (v : JSON) : itemsDepth [v] = v.depth := by
  show max v.depth 0 = v.depth
  simp

theorem numbersFit_nest (n : Nat) (v : JSON) (h : v.numbersFit = true) :
    (nest n v).numbersFit = true := by
  induction n with
  | zero => simpa [nest] using h
  | succ n ih => simp [nest, JSON.numbersFit, itemsFit, ih]

/-- A row object within the nesting limit whose members satisfy the conditions of
`decodeMembers_saved` is accepted. -/
theorem UnmarshalJSON_ok_of_members (conv : Int → Int) (members : List (String × JSON))
    (hd : (JSON.obj members).depth ≤ maxNestingDepth)
    (h : ∀ k v, (k, v) ∈ members →
      (keyIs "name" k = true ∨ keyIs "phone" k = true → v.isTextOrNull = true) ∧
      (keyIs "id" k = true ∨ keyIs "id_card" k = true ∨ keyIs "affiliation" k = true ∨
        keyIs "additional_info" k = true → v.numbersFit = true)) :
    ∃ r : Record, Record.UnmarshalJSON conv (JSON.obj members) = Except.ok r := by
  have hs := decodeMembers_saved members Temp.zero none h
  simp only [Record.UnmarshalJSON, unmarshalTemp, checkValid_of_le _ hd, decodeTemp, hs]
  exact ⟨_, rfl⟩

/-- A row accepted by `UnmarshalJSON` passed `checkValid`, and its `temp` is what the decoding
step gives. -/
theorem unmarshalTemp_of_ok (conv : Int → Int) (row : JSON) (r : Record)
    (h : Record.UnmarshalJSON conv row = Except.ok r) :
    row.depth ≤ maxNestingDepth ∧ unmarshalTemp row = decodeTemp row := by
  by_cases hd : row.depth ≤ maxNestingDepth
  · exact ⟨hd, by simp only [unmarshalTemp, checkValid_of_le _ hd]⟩
  · exfalso
    have hlt : maxNestingDepth < row.depth := by omega
    simp [Record.UnmarshalJSON, unmarshalTemp, checkValid_of_lt row hlt] at h

/-- A row nested deeper than the scanner allows is refused by `UnmarshalJSON`. -/
theorem UnmarshalJSON_too_deep (conv : Int → Int) (row : JSON)
    (h : maxNestingDepth < row.depth) :
    Record.UnmarshalJSON conv row = Except.error JsonError.exceededMaxDepth := by
  simp only [Record.UnmarshalJSON, unmarshalTemp, checkValid_of_lt row h]

set_option maxRecDepth 100000 in
set_option exponentiation.threshold 2000 in
/-- C2 fails as worded: a row whose `name` is a number is refused with the error of
`json.Unmarshal`, and so are a row whose `id` is a number beyond the `float64` range and a row
whose `affiliation` is nested 10000 arrays deep, one level past what the scanner allows. -/
theorem UnmarshalJSON_refuses_numeric_name :
    Record.UnmarshalJSON amd64 (JSON.obj [("name", JSON.num ⟨false, 5, 0⟩)]) =
        Except.error (JsonError.typeMismatch "number") ∧
      Record.UnmarshalJSON amd64 (JSON.obj [("id", JSON.num ⟨false, 1, 400⟩)]) =
        Except.error (JsonError.numberRange ⟨false, 1, 400⟩) ∧
      Record.UnmarshalJSON amd64 (JSON.obj [("affiliation", nest 10000 JSON.null)]) =
        Except.error JsonError.exceededMaxDepth := by
  refine ⟨by rfl, by rfl, UnmarshalJSON_too_deep amd64 _ ?_⟩
  rw [depth_single_member, depth_nest, depth_null]
  decide

/-- C2, amended: `Record.UnmarshalJSON` returns a record and a nil error for every raw row that
is a JSON object nested no deeper than 10000 arrays and objects (the row itself counted) in
which each value under `name` and `phone` is a string or null and no number inside a value
under `id`, `id_card`, `affiliation` or `additional_info` lies beyond the `float64` range;
apart from that these four may hold a value of any type, and any field may be absent. -/
theorem UnmarshalJSON_total (conv : Int → Int) (members : List (String × JSON))
    (hd : (JSON.obj members).depth ≤ 10000)
    (h : ∀ k v, (k, v) ∈ members →
      (keyIs "name" k = true ∨ keyIs "phone" k = true → v.isTextOrNull = true) ∧
      (keyIs "id" k = true ∨ keyIs "id_card" k = true ∨ keyIs "affiliation" k = true ∨
        keyIs "additional_info" k = true → v.numbersFit = true)) :
    ∃ r : Record, Record.UnmarshalJSON conv (JSON.obj members) = Except.ok r :=
  UnmarshalJSON_ok_of_members conv members hd h

/-- C2 amended, at a row whose `id` is a boolean, whose `id_card` is an array, whose
`affiliation` is an object and whose `phone` is null. -/
theorem UnmarshalJSON_total_witness :
    ∃ r : Record, Record.UnmarshalJSON amd64 (JSON.obj [("id", JSON.bool true),
      ("id_card", JSON.arr [JSON.str "x"]), ("name", JSON.str "gacj"), ("phone", JSON.null),
      ("affiliation", JSON.obj [("a", JSON.num ⟨false, 15, -1⟩)])]) = Except.ok r :=
  UnmarshalJSON_total amd64 _ (by decide) (by
    intro k v hm
    simp only [List.mem_cons, Prod.mk.injEq, List.mem_singleton, List.not_mem_nil,
      or_false] at hm
    rcases hm with ⟨rfl, rfl⟩ | ⟨rfl, rfl⟩ | ⟨rfl, rfl⟩ | ⟨rfl, rfl⟩ | ⟨rfl, rfl⟩ <;>
      exact ⟨by decide, by decide⟩)

mutual
theorem valueInterface_sticky : ∀ (v : JSON) (e : JsonError),
    (valueInterface v (some e)).2 = some e
  | .null, e => by simp [valueInterface]
  | .bool _, e => by simp [valueInterface]
  | .num n, e => by
      cases hr : convertNumber n <;> simp [valueInterface, hr, saveError]
  | .str _, e => by simp [valueInterface]
  | .arr items, e => by simp [valueInterface, arrayInterface_sticky items e]
  | .obj members, e => by simp [valueInterface, objectInterface_sticky members [] e]
theorem arrayInterface_sticky : ∀ (items : List JSON) (e : JsonError),
    (arrayInterface items (some e)).2 = some e
  | [], e => by simp [arrayInterface]
  | x :: xs, e => by
      simp [arrayInterface, valueInterface_sticky x e, arrayInterface_sticky xs e]
theorem objectInterface_sticky : ∀ (members : List (String × JSON)) (m : List (String × GoVal))
    (e : JsonError), (objectInterface members m (some e)).2 = some e
  | [], m, e => by simp [objectInterface]
  | (k, v) :: rest, m, e => by
      simp [objectInterface, valueInterface_sticky v e, objectInterface_sticky rest _ e]
end

theorem storeInterface_none (v : JSON) (old : GoVal) (saved : Option JsonError)
    (h : (storeInterface v old saved).2 = none) :
    saved = none ∧ (storeInterface v old saved).1 = (valueInterface v none).1 := by
  cases saved with
  | some e =>
      exfalso
      cases v with
      | num n => cases hr : convertNumber n <;> simp [storeInterface, hr, saveError] at h
      | arr items => simp [storeInterface, valueInterface_sticky] at h
      | obj members => simp [storeInterface, valueInterface_sticky] at h
      | _ => simp [storeInterface] at h
  | none =>
      refine ⟨rfl, ?_⟩
      cases v with
      | num n =>
          cases hr : convertNumber n with
          | ok f => simp [storeInterface, valueInterface, hr]
          | error e => simp [storeInterface, hr, saveError] at h
      | arr items => rfl
      | obj members => rfl
      | _ => simp [storeInterface, valueInterface]

theorem storeString_none (v : JSON) (old : String) (saved : Option JsonError)
    (h : (storeString v old saved).2 = none) : saved = none := by
  cases saved with
  | none => rfl
  | some e => cases v <;> simp [storeString, saveError] at h

theorem keyIs_unique (a b k : String) (ha : keyIs a k = true) (hb : keyIs b k = true) :
    a.data = b.data := by
  simp only [keyIs, beq_iff_eq] at ha hb
  rw [← ha, ← hb]

/-- One member decoded without error: the saved error was nil, and each `interface{}` field
holds the decoded value when the key selects it and is unchanged otherwise. -/
theorem decodeMember_none (t : Temp) (saved : Option JsonError) (k : String) (v : JSON)
    (h : (decodeMember t saved k v).2 = none) :
    saved = none ∧
    (decodeMember t saved k v).1.ID =
      (if keyIs "id" k then (valueInterface v none).1 else t.ID) ∧
    (decodeMember t saved k v).1.Score =
      (if keyIs "id_card" k then (valueInterface v none).1 else t.Score) ∧
    (decodeMember t saved k v).1.Code1 =
      (if keyIs "affiliation" k then (valueInterface v none).1 else t.Code1) ∧
    (decodeMember t saved k v).1.Code2 =
      (if keyIs "additional_info" k then (valueInterface v none).1 else t.Code2) := by
  have hx : ∀ a b : String, a.data ≠ b.data → keyIs a k = true → keyIs b k = false := by
    intro a b hab ha
    cases hb : keyIs b k with
    | false => rfl
    | true => exact absurd (keyIs_unique a b k ha hb) hab
  by_cases a : keyIs "id" k = true
  · have b := hx "id" "name" (by decide) a
    have c := hx "id" "id_card" (by decide) a
    have d := hx "id" "phone" (by decide) a
    have e := hx "id" "affiliation" (by decide) a
    have f := hx "id" "additional_info" (by decide) a
    simp only [decodeMember, a, b, c, d, e, f, Bool.false_eq_true, if_true, if_false] at h ⊢
    have h1 := storeInterface_none _ _ _ h
    refine ⟨h1.1, ?_, ?_, ?_, ?_⟩ <;> first | exact h1.2 | trivial
  by_cases b : keyIs "name" k = true
  · have c := hx "name" "id_card" (by decide) b
    have d := hx "name" "phone" (by decide) b
    have e := hx "name" "affiliation" (by decide) b
    have f := hx "name" "additional_info" (by decide) b
    simp only [decodeMember, a, b, c, d, e, f, Bool.false_eq_true, if_true, if_false] at h ⊢
    refine ⟨storeString_none _ _ _ h, ?_, ?_, ?_, ?_⟩ <;> first | trivial
  by_cases c : keyIs "id_card" k = true
  · have d := hx "id_card" "phone" (by decide) c
    have e := hx "id_card" "affiliation" (by decide) c
    have f := hx "id_card" "additional_info" (by decide) c
    simp only [decodeMember, a, b, c, d, e, f, Bool.false_eq_true, if_true, if_false] at h ⊢
    have h1 := storeInterface_none _ _ _ h
    refine ⟨h1.1, ?_, ?_, ?_, ?_⟩ <;> first | exact h1.2 | trivial
  by_cases d : keyIs "phone" k = true
  · have e := hx "phone" "affiliation" (by decide) d
    have f := hx "phone" "additional_info" (by decide) d
    simp only [decodeMember, a, b, c, d, e, f, Bool.false_eq_true, if_true, if_false] at h ⊢
    refine ⟨storeString_none _ _ _ h, ?_, ?_, ?_, ?_⟩ <;> first | trivial
  by_cases e : keyIs "affiliation" k = true
  · have f := hx "affiliation" "additional_info" (by decide) e
    simp only [decodeMember, a, b, c, d, e, f, Bool.false_eq_true, if_true, if_false] at h ⊢
    have h1 := storeInterface_none _ _ _ h
    refine ⟨h1.1, ?_, ?_, ?_, ?_⟩ <;> first | exact h1.2 | trivial
  by_cases f : keyIs "additional_info" k = true
  · simp only [decodeMember, a, b, c, d, e, f, Bool.false_eq_true, if_true, if_false] at h ⊢
    have h1 := storeInterface_none _ _ _ h
    refine ⟨h1.1, ?_, ?_, ?_, ?_⟩ <;> first | exact h1.2 | trivial
  · simp only [decodeMember, a, b, c, d, e, f, Bool.false_eq_true, if_true, if_false] at h ⊢
    refine ⟨h, ?_, ?_, ?_, ?_⟩ <;> first | trivial

theorem decodeMembers_none (members : List (String × JSON)) (t : Temp)
    (saved : Option JsonError) (h : (decodeMembers members t saved).2 = none) :
    saved = none ∧
    (decodeMembers members t saved).1.ID =
      (match fieldValue "id" members with
        | some v => (valueInterface v none).1 | none => t.ID) ∧
    (decodeMembers members t saved).1.Score =
      (match fieldValue "id_card" members with
        | some v => (valueInterface v none).1 | none => t.Score) ∧
    (decodeMembers members t saved).1.Code1 =
      (match fieldValue "affiliation" members with
        | some v => (valueInterface v none).1 | none => t.Code1) ∧
    (decodeMembers members t saved).1.Code2 =
      (match fieldValue "additional_info" members with
        | some v => (valueInterface v none).1 | none => t.Code2) := by
  induction members generalizing t saved with
  | nil => exact ⟨h, rfl, rfl, rfl, rfl⟩
  | cons kv rest ih =>
      obtain ⟨k, v⟩ := kv
      simp only [decodeMembers] at h ⊢
      obtain ⟨h0, h1, h2, h3, h4⟩ := ih _ _ h
      obtain ⟨g0, g1, g2, g3, g4⟩ := decodeMember_none t saved k v h0
      refine ⟨g0, ?_, ?_, ?_, ?_⟩
      · rw [h1, g1]
        simp only [fieldValue]
        cases fieldValue "id" rest <;> by_cases hk : keyIs "id" k = true <;> simp [hk]
      · rw [h2, g2]
        simp only [fieldValue]
        cases fieldValue "id_card" rest <;> by_cases hk : keyIs "id_card" k = true <;> simp [hk]
      · rw [h3, g3]
        simp only [fieldValue]
        cases fieldValue "affiliation" rest <;>
          by_cases hk : keyIs "affiliation" k = true <;> simp [hk]
      · rw [h4, g4]
        simp only [fieldValue]
        cases fieldValue "additional_info" rest <;>
          by_cases hk : keyIs "additional_info" k = true <;> simp [hk]

/-- The four coerced fields of an accepted row, each as the closures and `Sprintf` make it
from the decoded value of its field. -/
theorem UnmarshalJSON_fields (conv : Int → Int) (row : JSON) (r : Record)
    (h : Record.UnmarshalJSON conv row = Except.ok r) :
    r.ID = (toInt64 conv (decodedField "id" row)).1 ∧
    r.Score = (toInt conv (decodedField "id_card" row)).1 ∧
    r.Code1 = Sprintf_v (decodedField "affiliation" row) ∧
    r.Code2 = Sprintf_v (decodedField "additional_info" row) := by
  have hv := (unmarshalTemp_of_ok conv row r h).2
  simp only [Record.UnmarshalJSON, hv] at h
  cases row with
  | null =>
      simp only [decodeTemp, Except.ok.injEq] at h
      subst h
      simp [decodedField, rowField, Temp.zero]
  | obj members =>
      simp only [decodeTemp] at h
      cases hs : (decodeMembers members Temp.zero none).2 with
      | some e => simp [hs] at h
      | none =>
          simp only [hs, Except.ok.injEq] at h
          subst h
          obtain ⟨_, h1, h2, h3, h4⟩ := decodeMembers_none members Temp.zero none hs
          simp only [decodedField, rowField, h1, h2, h3, h4]
          refine ⟨?_, ?_, ?_, ?_⟩
          · cases fieldValue "id" members <;> rfl
          · cases fieldValue "id_card" members <;> rfl
          · cases fieldValue "affiliation" members <;> rfl
          · cases fieldValue "additional_info" members <;> rfl
  | bool b => simp [decodeTemp] at h
  | num n => simp [decodeTemp] at h
  | str s => simp [decodeTemp] at h
  | arr items => simp [decodeTemp] at h

/-! ## `strconv.ParseInt`: theorems -/

theorem digitVal_le (c : Char) (d : Nat) (h : digitVal c = some d) : d ≤ 9 := by
  unfold digitVal at h
  split_ifs at h with hc
  simp only [Option.some.injEq] at h
  have h9 : c.toNat ≤ '9'.toNat := by
    have := hc.2
    exact this
  have : '9'.toNat = 57 := by decide
  have : '0'.toNat = 48 := by decide
  omega

theorem digitsValue_ge (cs : List Char) (n v : Nat) (h : digitsValue cs n = some v) : n ≤ v := by
  induction cs generalizing n with
  | nil =>
      simp only [digitsValue, Option.some.injEq] at h
      omega
  | cons c cs ih =>
      simp only [digitsValue] at h
      cases hd : digitVal c with
      | none => simp [hd] at h
      | some d =>
          simp only [hd] at h
          have := ih _ h
          omega

/-- The loop of `ParseUint` on a run of digits: their value when it fits, the largest value
and a range error when it does not. -/
theorem parseUintLoop_digits (maxVal : Nat) (hmax : maxVal < 2 ^ 64) (cs : List Char)
    (n v : Nat) (h : digitsValue cs n = some v) (hn : n ≤ maxVal) :
    parseUintLoop maxVal cs n =
      if v ≤ maxVal then (v, none) else (maxVal, some NumError.errRange) := by
  induction cs generalizing n with
  | nil =>
      simp only [digitsValue, Option.some.injEq] at h
      subst h
      simp [parseUintLoop, hn]
  | cons c cs ih =>
      simp only [digitsValue] at h
      cases hd : digitVal c with
      | none => simp [hd] at h
      | some d =>
          simp only [hd] at h
          have hge := digitsValue_ge _ _ _ h
          have hd9 := digitVal_le c d hd
          have hcut : cutoff10 = 1844674407370955162 := by decide
          have h64 : (2 : Nat) ^ 64 = 18446744073709551616 := by norm_num
          simp only [parseUintLoop, hd]
          by_cases h1 : cutoff10 ≤ n
          · rw [if_pos h1, if_neg (by omega)]
          · rw [if_neg h1]
            have h10 : n * 10 % 2 ^ 64 = n * 10 := Nat.mod_eq_of_lt (by omega)
            simp only [h10]
            by_cases h2 : n * 10 + d < 2 ^ 64
            · have h11 : (n * 10 + d) % 2 ^ 64 = n * 10 + d := Nat.mod_eq_of_lt h2
              simp only [h11]
              by_cases h3 : maxVal < n * 10 + d
              · rw [if_pos (Or.inr h3), if_neg (by omega)]
              · rw [if_neg (by omega)]
                exact ih _ h (by omega)
            · have h11 : (n * 10 + d) % 2 ^ 64 < n * 10 := by
                have : (n * 10 + d) % 2 ^ 64 = n * 10 + d - 2 ^ 64 := by
                  rw [Nat.mod_eq_sub_mod (by omega)]
                  exact Nat.mod_eq_of_lt (by omega)
                omega
              rw [if_pos (Or.inl h11), if_neg (by omega)]

/-- The loop of `ParseUint` on digits followed by a character that is no digit, when the digits
do not overflow: a syntax error and the value 0. -/
theorem parseUintLoop_syntax (maxVal : Nat) (hmax : maxVal < 2 ^ 64) (c : Char)
    (rest : List Char) (hc : digitVal c = none) (ds : List Char) (n v : Nat)
    (h : digitsValue ds n = some v) (hv : v ≤ maxVal) :
    parseUintLoop maxVal (ds ++ c :: rest) n = (0, some NumError.errSyntax) := by
  induction ds generalizing n with
  | nil => simp [parseUintLoop, hc]
  | cons a ds ih =>
      simp only [digitsValue] at h
      cases hd : digitVal a with
      | none => simp [hd] at h
      | some d =>
          simp only [hd] at h
          have hge := digitsValue_ge _ _ _ h
          have hd9 := digitVal_le a d hd
          have hcut : cutoff10 = 1844674407370955162 := by decide
          have h64 : (2 : Nat) ^ 64 = 18446744073709551616 := by norm_num
          have h10 : n * 10 % 2 ^ 64 = n * 10 := Nat.mod_eq_of_lt (by omega)
          have h11 : (n * 10 + d) % 2 ^ 64 = n * 10 + d := Nat.mod_eq_of_lt (by omega)
          simp only [List.cons_append, parseUintLoop, hd, h10, h11]
          rw [if_neg (by omega), if_neg (by omega)]
          exact ih _ h

theorem ParseInt_body (c : Char) (cs : List Char) :
    (if (c == '+') = true ∨ (c == '-') = true then cs else c :: cs) = unsignedPart (c :: cs) := by
  simp [unsignedPart]

/-- `ParseInt` on a signed decimal whose value fits 64 bits: that value and no error. -/
theorem ParseInt_decimal (s : String) (z : Int) (h : decimalValue s = some z)
    (hlo : -(2 ^ 63 : Int) ≤ z) (hhi : z < 2 ^ 63) : ParseInt s 64 = (z, none) := by
  unfold decimalValue at h
  cases hs : s.data with
  | nil => simp [hs, unsignedPart] at h
  | cons c cs =>
      rw [hs] at h
      by_cases hb : unsignedPart (c :: cs) = []
      · simp [hb] at h
      rw [if_neg hb] at h
      cases hdv : digitsValue (unsignedPart (c :: cs)) 0 with
      | none => simp [hdv] at h
      | some n =>
          simp only [hdv, List.head?_cons, Option.some.injEq] at h
          have h64 : (2 : Nat) ^ 64 = 18446744073709551616 := by norm_num
          have h63 : (2 : Int) ^ 63 = 9223372036854775808 := by norm_num
          have h63n : (2 : Nat) ^ (64 - 1) = 9223372036854775808 := by norm_num
          have hloop := parseUintLoop_digits (2 ^ 64 - 1) (by omega) _ 0 n hdv (by omega)
          by_cases hneg : c = '-'
          · subst hneg
            simp only [if_true, Option.some.injEq] at h
            have hn : n ≤ 9223372036854775808 := by omega
            rw [if_pos (by omega)] at hloop
            simp only [ParseInt, hs, ParseInt_body, ParseUint, if_neg hb, hloop, h63n]
            simp only [beq_self_eq_true, Bool.not_true, Bool.false_eq_true, false_and, if_false,
              true_and]
            rw [if_neg (by omega)]
            simp [h]
          · rw [if_neg hneg] at h
            simp only [Option.some.injEq] at h
            have hn : n < 9223372036854775808 := by omega
            rw [if_pos (by omega)] at hloop
            simp only [ParseInt, hs, ParseInt_body, ParseUint, if_neg hb, hloop, h63n]
            have hbeq : (c == '-') = false := by simpa using hneg
            simp only [hbeq, Bool.not_false, true_and, Bool.false_eq_true, false_and, if_false]
            rw [if_neg (by omega)]
            simp [h]

/-- `ParseInt` on a text with a syntax failure found before any overflow: the value 0 and a
syntax error. -/
theorem ParseInt_syntax (s : String) (h : SyntaxFailure s) :
    ParseInt s 64 = (0, some NumError.errSyntax) := by
  cases hs : s.data with
  | nil => simp [ParseInt, hs]
  | cons c cs =>
      unfold SyntaxFailure at h
      rw [hs] at h
      simp only [ParseInt, hs, ParseInt_body, ParseUint]
      rcases h with hb | ⟨ds, a, rest, v, hb, hv, hlt, ha⟩
      · simp [hb]
      · have h64 : (2 : Nat) ^ 64 = 18446744073709551616 := by norm_num
        have hne : unsignedPart (c :: cs) ≠ [] := by simp [hb]
        rw [if_neg hne, hb,
          parseUintLoop_syntax (2 ^ 64 - 1) (by omega) a rest ha ds 0 v hv (by omega)]

/-- The value `ParseInt` returns, error or not, lies in the range of its bit size. -/
theorem ParseInt_range (s : String) (bitSize : Nat) :
    -((2 ^ (bitSize - 1) : Nat) : Int) ≤ (ParseInt s bitSize).1 ∧
      (ParseInt s bitSize).1 < ((2 ^ (bitSize - 1) : Nat) : Int) := by
  have hposn : 0 < 2 ^ (bitSize - 1) := by positivity
  unfold ParseInt
  generalize 2 ^ (bitSize - 1) = P at hposn ⊢
  cases s.data with
  | nil => simp only []; omega
  | cons c cs =>
      simp only []
      rcases ParseUint (if (c == '+') = true ∨ (c == '-') = true then cs else c :: cs)
        bitSize with ⟨un, err⟩
      have key : -(P : Int) ≤
            (if (!(c == '-')) = true ∧ P ≤ un then (((P - 1 : Nat) : Int), some NumError.errRange)
              else if (c == '-') = true ∧ P < un then (-(P : Int), some NumError.errRange)
              else (if (c == '-') = true then -(un : Int) else (un : Int), none)).1 ∧
          (if (!(c == '-')) = true ∧ P ≤ un then (((P - 1 : Nat) : Int), some NumError.errRange)
              else if (c == '-') = true ∧ P < un then (-(P : Int), some NumError.errRange)
              else (if (c == '-') = true then -(un : Int) else (un : Int), none)).1 < (P : Int) := by
        cases (c == '-') with
        | true =>
            simp only [Bool.not_true, Bool.false_eq_true, false_and, if_false, true_and, if_true]
            by_cases h2 : P < un
            · rw [if_pos h2]; simp only []; omega
            · rw [if_neg h2]; simp only []; omega
        | false =>
            simp only [Bool.not_false, true_and, Bool.false_eq_true, false_and, if_false]
            by_cases h1 : P ≤ un
            · rw [if_pos h1]; simp only []; omega
            · rw [if_neg h1]; simp only []; omega
      cases err with
      | none => exact key
      | some e =>
          cases e with
          | errSyntax => simp only []; omega
          | errRange => exact key

/-! ## `float64`: theorems -/

theorem bitLenAux_bounds (fuel n : Nat) (h : n ≤ fuel) :
    n < 2 ^ bitLenAux fuel n ∧ (0 < n → 2 ^ bitLenAux fuel n ≤ 2 * n) := by
  induction fuel generalizing n with
  | zero =>
      have : n = 0 := by omega
      subst this
      simp [bitLenAux]
  | succ fuel ih =>
      by_cases h0 : n = 0
      · subst h0
        simp [bitLenAux]
      · simp only [bitLenAux, if_neg h0]
        obtain ⟨h1, h2⟩ := ih (n / 2) (by omega)
        rw [pow_succ]
        refine ⟨by omega, fun _ => ?_⟩
        by_cases hh : 0 < n / 2
        · have := h2 hh
          omega
        · have hn1 : n / 2 = 0 := by omega
          have hb : bitLenAux fuel (n / 2) = 0 := by
            rw [hn1]
            cases fuel <;> simp [bitLenAux]
          rw [hb]
          omega

theorem bitLen_bounds (n : Nat) (h : 0 < n) :
    n < 2 ^ bitLen n ∧ 2 ^ bitLen n ≤ 2 * n ∧ 0 < bitLen n := by
  obtain ⟨h1, h2⟩ := bitLenAux_bounds n n (le_refl n)
  refine ⟨h1, h2 h, ?_⟩
  by_contra h0
  have : bitLen n = 0 := by omega
  unfold bitLen at this
  rw [this] at h1
  omega

theorem roundHalfEven_one (n : Nat) : roundHalfEven n 1 = n := by
  simp [roundHalfEven, Nat.mod_one]

/-- An integer of magnitude below `2 ^ 53` is a `float64`: rounding gives a value whose
integer part is the integer itself. -/
theorem roundToF64_int_lt (neg : Bool) (d : Nat) (h0 : 0 < d) (hd : d < 2 ^ 53) :
    ∃ f, roundToF64 neg d 1 = some f ∧ f.neg = neg ∧
      f.trunc = if neg then -(d : Int) else (d : Int) := by
  obtain ⟨h1, h2, h3⟩ := bitLen_bounds d h0
  have hL : bitLen d ≤ 53 := by
    by_contra hc
    have : 2 ^ 54 ≤ 2 ^ bitLen d := Nat.pow_le_pow_right (by norm_num) (by omega)
    have h54 : (2 : Nat) ^ 54 = 2 * 2 ^ 53 := by norm_num
    omega
  have hb1 : bitLen 1 = 1 := by decide
  obtain ⟨k, hk⟩ : ∃ k, bitLen d = k + 1 := ⟨bitLen d - 1, by omega⟩
  have hk52 : k ≤ 52 := by omega
  rw [hk, pow_succ] at h1 h2
  have hfl : floorLog2 d 1 = (k : Int) := by
    have hkk : ((k + 1 : Nat) : Int) - ((1 : Nat) : Int) = (k : Int) := by push_cast; ring
    simp only [floorLog2, hk, hb1, hkk, scale2, Int.natCast_nonneg, if_true, Int.toNat_ofNat,
      one_mul]
    rw [if_pos (by omega)]
  have he : max ((k : Int) - 52) (-1074) = (k : Int) - 52 := by omega
  obtain ⟨j, hj⟩ : ∃ j, k + j = 52 := ⟨52 - k, by omega⟩
  have hm1 : d * 2 ^ j < 2 ^ 53 := by
    have : (2 : Nat) ^ 53 = 2 ^ k * 2 * 2 ^ j := by
      rw [show 53 = k + 1 + j by omega, pow_add, pow_succ]
    rw [this]
    exact Nat.mul_lt_mul_of_lt_of_le h1 (le_refl _) (by positivity)
  have hscale : scale2 d 1 ((k : Int) - 52) = (d * 2 ^ j, 1) := by
    unfold scale2
    by_cases hz : (0 : Int) ≤ (k : Int) - 52
    · have hj0 : j = 0 := by omega
      have hk0 : ((k : Int) - 52).toNat = 0 := by omega
      rw [if_pos hz, hk0, hj0]
      simp
    · have hjn : (-((k : Int) - 52)).toNat = j := by omega
      rw [if_neg hz, hjn]
  refine ⟨⟨neg, d * 2 ^ j, (k : Int) - 52⟩, ?_, rfl, ?_⟩
  · unfold roundToF64
    rw [if_neg (by omega)]
    simp only [hfl, he, hscale, roundHalfEven_one]
    rw [if_neg (by omega), if_neg (by omega), if_neg (by omega)]
  · unfold F64.trunc
    simp only []
    by_cases hz : (0 : Int) ≤ (k : Int) - 52
    · have hj0 : j = 0 := by omega
      have hk0 : ((k : Int) - 52).toNat = 0 := by omega
      rw [if_pos hz, hk0, hj0]
      simp
    · have hjn : (-((k : Int) - 52)).toNat = j := by omega
      rw [if_neg hz, hjn, Nat.mul_div_cancel _ (by positivity)]

set_option exponentiation.threshold 2000 in
/-- An integer of magnitude at most `2 ^ 53` written without fraction or exponent decodes to
a `float64` whose integer part is the integer itself. -/
theorem convertNumber_int (neg : Bool) (d : Nat) (hd : d ≤ 2 ^ 53) :
    ∃ f, convertNumber ⟨neg, d, 0⟩ = Except.ok f ∧
      f.trunc = if neg then -(d : Int) else (d : Int) := by
  have hfrac : (JNumber.frac ⟨neg, d, 0⟩) = (d, 1) := by simp [JNumber.frac]
  unfold convertNumber
  simp only [hfrac]
  by_cases h0 : d = 0
  · subst h0
    refine ⟨⟨neg, 0, -1074⟩, by simp [roundToF64], ?_⟩
    cases neg <;> simp [F64.trunc, Nat.zero_div]
  by_cases h53 : d = 2 ^ 53
  · subst h53
    cases neg
    · exact ⟨⟨false, 2 ^ 52, 1⟩, by rfl, by rfl⟩
    · exact ⟨⟨true, 2 ^ 52, 1⟩, by rfl, by rfl⟩
  · obtain ⟨f, hf, _, ht⟩ := roundToF64_int_lt neg d (by omega) (by omega)
    exact ⟨f, by simp [hf], ht⟩

/-! ## The coerced fields: theorems -/

/-- C3 fails as worded: a digit string beyond the `int64` range gives the largest `int64`, not
0, and the number 9007199254740993 gives 9007199254740992, not itself. -/
theorem identifier_not_as_worded :
    Record.UnmarshalJSON amd64 (JSON.obj [("id", JSON.str "9223372036854775808")]) =
        Except.ok ⟨9223372036854775807, "", 0, "", "<nil>", "<nil>"⟩ ∧
      Record.UnmarshalJSON amd64 (JSON.obj [("id", JSON.num ⟨false, 9007199254740993, 0⟩)]) =
        Except.ok ⟨9007199254740992, "", 0, "", "<nil>", "<nil>"⟩ := by
  constructor <;> rfl

/-- C3, amended: for every raw row that coercion accepts, the identifier is
* the integer the `id` string denotes, when the string is an optional sign followed by decimal
  digits and the integer lies in the `int64` range;
* 0 when the `id` string, after an optional sign, is empty or has a character that is no
  decimal digit before its digits reach `2 ^ 64` (for example `abc`);
* the `float64` nearest to the `id` number, truncated toward zero, when that lies in the
  `int64` range; so an integer of magnitude at most `2 ^ 53` gives itself;
* 0 when the `id` value is of any other type or the field is absent. -/
theorem UnmarshalJSON_identifier (conv : Int → Int) (row : JSON) (r : Record)
    (h : Record.UnmarshalJSON conv row = Except.ok r) :
    (∀ s z, rowField "id" row = some (JSON.str s) → decimalValue s = some z →
        -(2 ^ 63 : Int) ≤ z → z < 2 ^ 63 → r.ID = z) ∧
    (∀ s, rowField "id" row = some (JSON.str s) → SyntaxFailure s → r.ID = 0) ∧
    (∀ x f, rowField "id" row = some (JSON.num x) →
        roundToF64 x.neg x.frac.1 x.frac.2 = some f →
        -(2 ^ 63 : Int) ≤ f.trunc → f.trunc < 2 ^ 63 → r.ID = f.trunc) ∧
    (∀ neg d, rowField "id" row = some (JSON.num ⟨neg, d, 0⟩) → d ≤ 2 ^ 53 →
        r.ID = if neg then -(d : Int) else (d : Int)) ∧
    (∀ v, rowField "id" row = some v → (∀ s, v ≠ JSON.str s) → (∀ x, v ≠ JSON.num x) →
        r.ID = 0) ∧
    (rowField "id" row = none → r.ID = 0) := by
  have hID := (UnmarshalJSON_fields conv row r h).1
  have hnum : ∀ x f, rowField "id" row = some (JSON.num x) →
      roundToF64 x.neg x.frac.1 x.frac.2 = some f →
      -(2 ^ 63 : Int) ≤ f.trunc → f.trunc < 2 ^ 63 → r.ID = f.trunc := by
    intro x f hv hf hlo hhi
    rw [hID]
    simp only [decodedField, hv, valueInterface, convertNumber, hf, toInt64, floatToInt64]
    rw [if_pos ⟨hlo, hhi⟩]
  refine ⟨?_, ?_, hnum, ?_, ?_, ?_⟩
  · intro s z hv hz hlo hhi
    rw [hID]
    simp only [decodedField, hv, valueInterface, toInt64, ParseInt_decimal s z hz hlo hhi]
  · intro s hv hs
    rw [hID]
    simp only [decodedField, hv, valueInterface, toInt64, ParseInt_syntax s hs]
  · intro neg d hv hd
    obtain ⟨f, hf, ht⟩ := convertNumber_int neg d hd
    have hf1 : roundToF64 neg (JNumber.frac ⟨neg, d, 0⟩).1 (JNumber.frac ⟨neg, d, 0⟩).2 =
        some f := by
      unfold convertNumber at hf
      cases hr : roundToF64 neg (JNumber.frac ⟨neg, d, 0⟩).1 (JNumber.frac ⟨neg, d, 0⟩).2 with
      | none => simp [hr] at hf
      | some g =>
          simp only [hr, Except.ok.injEq] at hf
          rw [hf]
    have h53 : (2 : Nat) ^ 53 = 9007199254740992 := by norm_num
    have h63 : (2 : Int) ^ 63 = 9223372036854775808 := by norm_num
    rw [← ht]
    refine hnum _ f hv hf1 ?_ ?_
    · rw [ht]; split_ifs <;> omega
    · rw [ht]; split_ifs <;> omega
  · intro v hv hs hn
    rw [hID]
    simp only [decodedField, hv]
    cases v with
    | str s => exact absurd rfl (hs s)
    | num x => exact absurd rfl (hn x)
    | null => simp [valueInterface, toInt64]
    | bool b => simp [valueInterface, toInt64]
    | arr items => simp [valueInterface, toInt64]
    | obj members => simp [valueInterface, toInt64]
  · intro hv
    rw [hID]
    simp [decodedField, hv, toInt64]

/-- C3 amended, at the rows of the specification: `{"id":"42"}` is accepted, its `id` is the
string `42`, which denotes 42 within the `int64` range, and the identifier is 42;
`{"id":"abc"}` gives 0 and `{"id":3.9}` gives 3. -/
theorem UnmarshalJSON_identifier_witness :
    (Record.UnmarshalJSON amd64 (JSON.obj [("id", JSON.str "42")]) =
        Except.ok ⟨42, "", 0, "", "<nil>", "<nil>"⟩ ∧
      rowField "id" (JSON.obj [("id", JSON.str "42")]) = some (JSON.str "42") ∧
      decimalValue "42" = some 42 ∧
      (⟨42, "", 0, "", "<nil>", "<nil>"⟩ : Record).ID = 42) ∧
    Record.UnmarshalJSON amd64 (JSON.obj [("id", JSON.str "abc")]) =
        Except.ok ⟨0, "", 0, "", "<nil>", "<nil>"⟩ ∧
    Record.UnmarshalJSON amd64 (JSON.obj [("id", JSON.num ⟨false, 39, -1⟩)]) =
        Except.ok ⟨3, "", 0, "", "<nil>", "<nil>"⟩ :=
  ⟨⟨rfl, rfl, rfl, (UnmarshalJSON_identifier amd64 (JSON.obj [("id", JSON.str "42")])
      ⟨42, "", 0, "", "<nil>", "<nil>"⟩ rfl).1 "42" 42 rfl rfl (by decide) (by decide)⟩,
    rfl, rfl⟩

theorem fmtE_ne_nil (digs : List Char) (dp : Int) : fmtE digs dp ≠ [] := by
  simp [fmtE]

theorem fmtF_ne_nil (digs : List Char) (dp : Int) (prec : Nat) : fmtF digs dp prec ≠ [] := by
  unfold fmtF
  simp only []
  intro h
  have hl := congrArg List.length h
  by_cases hdp : 0 < dp
  · simp only [if_pos hdp, List.length_append, List.length_take, List.length_replicate,
      List.length_nil] at hl
    have : 0 < dp.toNat := by omega
    omega
  · simp [if_neg hdp] at hl

theorem formatG_ne_empty (f : F64) : (formatG f).data ≠ [] := by
  unfold formatG
  simp only []
  split_ifs <;> simp [fmtE_ne_nil, fmtF_ne_nil]

/-- `%v` prints at least one character for every decoded value except the empty string. -/
theorem sprintV_ne_nil (g : GoVal) (h : g ≠ GoVal.string "") : sprintV g ≠ [] := by
  cases g with
  | nil => simp [sprintV]
  | bool b => cases b <;> simp [sprintV]
  | float f => simpa [sprintV] using formatG_ne_empty f
  | string s =>
      simp only [sprintV]
      intro hs
      apply h
      have : s = "" := String.ext hs
      rw [this]
  | slice xs => simp [sprintV]
  | map m => simp [sprintV]

theorem valueInterface_empty_string (v : JSON) (saved : Option JsonError)
    (h : (valueInterface v saved).1 = GoVal.string "") : v = JSON.str "" := by
  cases v with
  | num n => cases hc : convertNumber n <;> simp [valueInterface, hc] at h
  | str s =>
      simp only [valueInterface, GoVal.string.injEq] at h
      rw [h]
  | _ => simp [valueInterface] at h

/-- C5 fails as worded: the empty string under `affiliation` is not null and the text made
from it is empty. -/
theorem empty_affiliation_gives_empty_text :
    Record.UnmarshalJSON amd64 (JSON.obj [("affiliation", JSON.str "")]) =
      Except.ok ⟨0, "", 0, "", "", "<nil>"⟩ := by
  rfl

/-- C5, amended: for every raw row that coercion accepts and for each of the fields
`affiliation` and `additional_info`: if the field's JSON value is not null and is not the empty
string (any other string, any number, boolean, array or object), the text of `Code1` or
`Code2` made from it is not empty. -/
theorem UnmarshalJSON_codes_nonempty (conv : Int → Int) (row : JSON) (r : Record)
    (h : Record.UnmarshalJSON conv row = Except.ok r) :
    (∀ v, rowField "affiliation" row = some v → v ≠ JSON.null → v ≠ JSON.str "" →
        r.Code1 ≠ "") ∧
    (∀ v, rowField "additional_info" row = some v → v ≠ JSON.null → v ≠ JSON.str "" →
        r.Code2 ≠ "") := by
  obtain ⟨_, _, h1, h2⟩ := UnmarshalJSON_fields conv row r h
  have key : ∀ v : JSON, v ≠ JSON.str "" → Sprintf_v (valueInterface v none).1 ≠ "" := by
    intro v hv hs
    have hd : sprintV (valueInterface v none).1 = [] := by
      have := congrArg String.data hs
      simpa [Sprintf_v] using this
    exact sprintV_ne_nil _ (fun hg => hv (valueInterface_empty_string v none hg)) hd
  constructor
  · intro v hv _ hne
    rw [h1]
    simp only [decodedField, hv]
    exact key v hne
  · intro v hv _ hne
    rw [h2]
    simp only [decodedField, hv]
    exact key v hne

/-- C5 amended, at a row whose `affiliation` is the boolean `true` and whose `additional_info`
is a nested object. -/
theorem UnmarshalJSON_codes_nonempty_witness :
    Record.UnmarshalJSON amd64 (JSON.obj [("affiliation", JSON.bool true),
        ("additional_info", JSON.obj [("k", JSON.arr [JSON.null, JSON.num ⟨false, 123, 0⟩])])]) =
      Except.ok ⟨0, "", 0, "", "true", "map[k:[<nil> 123]]"⟩ ∧
    (⟨0, "", 0, "", "true", "map[k:[<nil> 123]]"⟩ : Record).Code1 ≠ "" ∧
    (⟨0, "", 0, "", "true", "map[k:[<nil> 123]]"⟩ : Record).Code2 ≠ "" :=
  ⟨rfl,
    (UnmarshalJSON_codes_nonempty amd64 (JSON.obj [("affiliation", JSON.bool true),
        ("additional_info", JSON.obj [("k", JSON.arr [JSON.null, JSON.num ⟨false, 123, 0⟩])])])
      ⟨0, "", 0, "", "true", "map[k:[<nil> 123]]"⟩ rfl).1
      (JSON.bool true) rfl (by simp) (by simp),
    (UnmarshalJSON_codes_nonempty amd64 (JSON.obj [("affiliation", JSON.bool true),
        ("additional_info", JSON.obj [("k", JSON.arr [JSON.null, JSON.num ⟨false, 123, 0⟩])])])
      ⟨0, "", 0, "", "true", "map[k:[<nil> 123]]"⟩ rfl).2
      (JSON.obj [("k", JSON.arr [JSON.null, JSON.num ⟨false, 123, 0⟩])]) rfl (by simp) (by simp)⟩

/-- C4 at the row `{"id_card": 3000000000}`: the score is 3000000000, above `2 ^ 31 - 1`,
whatever the platform does with conversions that do not fit. -/
theorem score_beyond_int32 (conv : Int → Int) :
    Record.UnmarshalJSON conv (JSON.obj [("id_card", JSON.num ⟨false, 3000000000, 0⟩)]) =
        Except.ok ⟨0, "", 3000000000, "", "<nil>", "<nil>"⟩ ∧
      (2 : Int) ^ 31 - 1 < 3000000000 := by
  constructor
  · rfl
  · norm_num

/-! ## The response envelope: theorems -/

theorem decodeRecords_of_forall₂ (conv : Int → Int) (rows : List JSON) (recs : List Record)
    (h : List.Forall₂ (fun row r => Record.UnmarshalJSON conv row = Except.ok r) rows recs) :
    decodeRecords conv rows = Except.ok recs := by
  induction h with
  | nil => rfl
  | cons h1 _ ih => simp [decodeRecords, h1, ih]

theorem unmarshalResponse_envelope (conv : Int → Int) (rows : List JSON) (recs : List Record)
    (hd : (JSON.obj [("data", JSON.arr rows)]).depth ≤ maxNestingDepth)
    (h : List.Forall₂ (fun row r => Record.UnmarshalJSON conv row = Except.ok r) rows recs) :
    unmarshalResponse conv (envelope rows) = Except.ok ⟨recs⟩ := by
  have hk : keyIs "data" "data" = true := by decide
  simp [unmarshalResponse, envelope, checkValid_of_le _ hd, decodeResponse, decodeEnvelope, hk,
    decodeRecords_of_forall₂ conv rows recs h]

/-- A success-status response whose body is nested deeper than the scanner allows makes
`fetchRecords` return the decode error. -/
theorem fetchRecords_too_deep (conv : Int → Int) (store : Store) (sent : List String)
    (tok : String) (doc : JSON) (hm : MatchString tok = false)
    (hs : store sent ("SELECT * FROM clickhouse_sec ORDER BY id " ++ tok ++ " FORMAT JSON") =
      Reply.response 200 (some (Body.document doc)))
    (hd : maxNestingDepth < doc.depth) :
    (fetchRecords conv store tok sent).1 =
      Except.error (Error.decode JsonError.exceededMaxDepth) := by
  simp [fetchRecords, hm, httpPost, hs, StatusOK, unmarshalResponse, checkValid_of_lt doc hd]

/-- An accepted sort token and a success-status response whose body is the envelope around
rows that each coerce without error, the body within the nesting limit: `fetchRecords` returns
the records of the rows in order. -/
theorem fetchRecords_envelope (conv : Int → Int) (store : Store) (sent : List String)
    (tok : String) (rows : List JSON) (recs : List Record) (hm : MatchString tok = false)
    (hs : store sent ("SELECT * FROM clickhouse_sec ORDER BY id " ++ tok ++ " FORMAT JSON") =
      Reply.response 200 (some (envelope rows)))
    (hd : (JSON.obj [("data", JSON.arr rows)]).depth ≤ maxNestingDepth)
    (hr : List.Forall₂ (fun row r => Record.UnmarshalJSON conv row = Except.ok r) rows recs) :
    (fetchRecords conv store tok sent).1 = Except.ok recs := by
  simp [fetchRecords, hm, httpPost, hs, StatusOK,
    unmarshalResponse_envelope conv rows recs hd hr]

/-- C8 fails as worded: the row `{"affiliation": [[...null...]]}` with 9998 arrays coerces
without error on its own (it is nested 9999 deep), but the envelope around it is nested 10001
deep, one level past what the scanner of `encoding/json` allows, and `fetchRecords` returns
the decode error instead of the record. -/
theorem deep_row_refused_in_envelope :
    (∃ r : Record,
      Record.UnmarshalJSON amd64 (JSON.obj [("affiliation", nest 9998 JSON.null)]) =
        Except.ok r) ∧
    (fetchRecords amd64
        (fun _ _ => Reply.response 200
          (some (envelope [JSON.obj [("affiliation", nest 9998 JSON.null)]]))) "ASC" []).1 =
      Except.error (Error.decode JsonError.exceededMaxDepth) := by
  constructor
  · refine UnmarshalJSON_ok_of_members amd64 _ ?_ ?_
    · rw [depth_single_member, depth_nest, depth_null]
      decide
    · intro k v hm
      simp only [List.mem_singleton, Prod.mk.injEq] at hm
      obtain ⟨rfl, rfl⟩ := hm
      exact ⟨fun hk => absurd hk (by decide), fun _ => numbersFit_nest _ _ rfl⟩
  · refine fetchRecords_too_deep amd64 _ [] "ASC" _ (by decide) rfl ?_
    rw [depth_envelope, itemsDepth_single, depth_single_member, depth_nest, depth_null]
    decide

/-- C8, amended: for an accepted sort token and a success-status response whose body is the
envelope `{"data":[r1,...,rn]}`, nested no deeper than 10000 arrays and objects (the envelope's
own two counted), in which each row coerces without error on its own, `fetchRecords` succeeds
and returns the records of the rows, one per row and in the order of the store. -/
theorem fetchRecords_returns_rows (conv : Int → Int) (store : Store) (sent : List String)
    (tok : String) (rows : List JSON) (recs : List Record)
    (hv : (fetchRecords conv store tok sent).1 ≠ Except.error (Error.errorf "mamba out"))
    (hs : store sent ("SELECT * FROM clickhouse_sec ORDER BY id " ++ tok ++ " FORMAT JSON") =
      Reply.response 200 (some (envelope rows)))
    (hd : (JSON.obj [("data", JSON.arr rows)]).depth ≤ 10000)
    (hr : List.Forall₂ (fun row r => Record.UnmarshalJSON conv row = Except.ok r) rows recs) :
    (fetchRecords conv store tok sent).1 = Except.ok recs := by
  have hm : MatchString tok = false := by
    cases hb : MatchString tok with
    | false => rfl
    | true => exact absurd ((rejected_iff_match conv store tok sent).mpr hb) hv
  exact fetchRecords_envelope conv store sent tok rows recs hm hs hd hr

/-- C8 amended, at six rows of which the third is the empty object: six records come back,
and the other five are the records of the same response without the empty row. -/
theorem fetchRecords_returns_rows_witness :
    (fetchRecords amd64 (fun _ _ => Reply.response 200 (some (envelope
        [seedRow1, seedRow2, JSON.obj [], seedRow2, seedRow1, seedRow1]))) "ASC" []).1 =
      Except.ok [⟨2, "hacker", 3333, "15534212521", "15534212521", "15534212521"⟩,
        ⟨1, "gacj", 33333333, "15534212521", "1.223321e+06", "hacker"⟩,
        ⟨0, "", 0, "", "<nil>", "<nil>"⟩,
        ⟨1, "gacj", 33333333, "15534212521", "1.223321e+06", "hacker"⟩,
        ⟨2, "hacker", 3333, "15534212521", "15534212521", "15534212521"⟩,
        ⟨2, "hacker", 3333, "15534212521", "15534212521", "15534212521"⟩] ∧
    (fetchRecords amd64 (fun _ _ => Reply.response 200 (some (envelope
        [seedRow1, seedRow2, seedRow2, seedRow1, seedRow1]))) "ASC" []).1 =
      Except.ok [⟨2, "hacker", 3333, "15534212521", "15534212521", "15534212521"⟩,
        ⟨1, "gacj", 33333333, "15534212521", "1.223321e+06", "hacker"⟩,
        ⟨1, "gacj", 33333333, "15534212521", "1.223321e+06", "hacker"⟩,
        ⟨2, "hacker", 3333, "15534212521", "15534212521", "15534212521"⟩,
        ⟨2, "hacker", 3333, "15534212521", "15534212521", "15534212521"⟩] :=
  ⟨fetchRecords_returns_rows amd64 _ [] "ASC" _ _ (by
      have hrun : (fetchRecords amd64 (fun _ _ => Reply.response 200 (some (envelope
          [seedRow1, seedRow2, JSON.obj [], seedRow2, seedRow1, seedRow1]))) "ASC" []).1 =
          Except.ok [⟨2, "hacker", 3333, "15534212521", "15534212521", "15534212521"⟩,
            ⟨1, "gacj", 33333333, "15534212521", "1.223321e+06", "hacker"⟩,
            ⟨0, "", 0, "", "<nil>", "<nil>"⟩,
            ⟨1, "gacj", 33333333, "15534212521", "1.223321e+06", "hacker"⟩,
            ⟨2, "hacker", 3333, "15534212521", "15534212521", "15534212521"⟩,
            ⟨2, "hacker", 3333, "15534212521", "15534212521", "15534212521"⟩] := by rfl
      rw [hrun]
      intro hne
      cases hne) rfl (by decide)
    (List.Forall₂.cons rfl (List.Forall₂.cons rfl (List.Forall₂.cons rfl (List.Forall₂.cons rfl
      (List.Forall₂.cons rfl (List.Forall₂.cons rfl List.Forall₂.nil)))))),
    by rfl⟩

/-- The branches of `toInt` other than the `float64` one keep the score within the signed
32-bit range: the string branch by the bit size 32 it gives `ParseInt`, the default branch by
returning 0. -/
theorem toInt_range_unless_float (conv : Int → Int) (g : GoVal) (h : ∀ f, g ≠ GoVal.float f) :
    -(2 ^ 31 : Int) ≤ (toInt conv g).1 ∧ (toInt conv g).1 < 2 ^ 31 := by
  cases g with
  | float f => exact absurd rfl (h f)
  | string s =>
      have hr := ParseInt_range s 32
      simp only [toInt]
      norm_num at hr ⊢
      exact hr
  | nil => simp [toInt]
  | bool b => simp [toInt]
  | slice xs => simp [toInt]
  | map m => simp [toInt]

end ClickhouseSec
